import Mathlib

/-!
Verification of the pagination engine of `tiptap-extension-pagination`.

The development shallowly embeds the repagination core:
  * the flow-packing algorithm `buildNewDocument` (src/utils/buildPageView.ts)
    together with `collectContentNodes`, `limitMappedCursorPositions`,
    `mapCursorPosition` and the cursor-mapping retry loop of `buildPageView`;
  * the trigger controller's decision logic (src/Plugins/Pagination.ts);
  * the boundary predicates (bodyCondition.ts / pageCondition.ts);
  * the page-number attribute resolution (headerFooter.ts utilities and
    src/constants/pageRegions.ts).

Measured heights are integers: the JS code works with device-pixel heights
(doubles), but the packing logic only ever adds, subtracts and compares
them, which ℤ models exactly at integer-valued measurements and without the
floating-point representation playing any role in the claims.  ProseMirror
node sizes are naturals; document positions are integers.  Helpers of the repository that are not part
of the provided sources (the attribute resolver, `shouldBreakParagraph`,
`inRange`, the resolved-position utilities) are modelled from the spec and
say so in their doc comments.
-/

/-- A flow block (paragraph or similar): an opaque content node together with
its ProseMirror node size, its measured height (the height oracle's answer for
it) and whether it is a paragraph node.  `tag` stands for the opaque content
identity. -/
structure Block where
  tag : Nat
  size : Nat
  height : ℤ
  isParagraph : Bool
  deriving DecidableEq

/-- Header/footer region kind, the `type` attribute of a header-footer node. -/
inductive HFType where
  | header
  | footer
  deriving DecidableEq

/-- Horizontal position of a rendered page number. -/
inductive PNPosition where
  | left
  | center
  | right
  deriving DecidableEq

/-- Page number display options (src/types/pageRegions.ts).  The `show`
field of the source is called `show_` because `show` is a Lean keyword. -/
structure PageNumberOptions where
  show_ : Bool
  position : PNPosition
  format : String
  deriving DecidableEq

/-- A partially specified `PageNumberOptions` object, as stored in the
`pageNumber` node attribute (commands merge partial updates into it). -/
structure PartialPageNumberOptions where
  show_ : Option Bool
  position : Option PNPosition
  format : Option String
  deriving DecidableEq

/-- The attributes of a header-footer node that the modelled code inspects:
its `type` and its `pageNumber` options (absent attribute = `none`). -/
structure HFAttrs where
  type : Option HFType
  pageNumber : Option PartialPageNumberOptions
  deriving DecidableEq

/-- A header or footer node: attributes plus block content. -/
structure HeaderFooterNode where
  attrs : HFAttrs
  content : List Block
  deriving DecidableEq

/-- Opaque page-level attributes (paper size, colour, orientation, borders). -/
structure PageAttrsB where
  tag : Nat
  deriving DecidableEq

/-- Opaque body-region attributes (page margins). -/
structure BodyAttrs where
  tag : Nat
  deriving DecidableEq

/-- A page node: page attributes, an optional header region, the body region
(attributes plus the ordered flow blocks) and an optional footer region.  The
regions appear in the page's content in this fixed order, absent regions
filtered out, exactly as `constructPageRegions` builds them. -/
structure Page where
  attrs : PageAttrsB
  header : Option HeaderFooterNode
  bodyAttrs : BodyAttrs
  blocks : List Block
  footer : Option HeaderFooterNode
  deriving DecidableEq

/-- ProseMirror node size of a header/footer node: content size plus 2. -/
def HeaderFooterNode.nodeSize (hf : HeaderFooterNode) : Nat :=
  (hf.content.map Block.size).sum + 2

/-- Modelled from the spec: `getMaybeNodeSize` (utils/nodes/node.ts, not in
the provided sources) returns a node's size, or 0 for an absent node; the
packing loop uses it for the optional header region (§4.2 step 3: new offsets
include header/footer node sizes). -/
def getMaybeNodeSize : Option HeaderFooterNode → Nat
  | none => 0
  | some hf => hf.nodeSize

/-- ProseMirror content size of the body region: block sizes plus 2. -/
def Page.bodySize (p : Page) : Nat :=
  (p.blocks.map Block.size).sum + 2

/-- ProseMirror node size of a page: sizes of its present regions plus 2. -/
def Page.nodeSize (p : Page) : Nat :=
  getMaybeNodeSize p.header + p.bodySize + getMaybeNodeSize p.footer + 2

/-- Content size of the rebuilt document (`newDoc.content.size`): the sum of
the page node sizes. -/
def docContentSize (pages : List Page) : Nat :=
  (pages.map Page.nodeSize).sum

/-- A collected content node together with its position in the old document
(the `NodePosArray` entries of `collectContentNodes`). -/
structure NodePos where
  node : Block
  pos : ℤ
  deriving DecidableEq

/-- Content nodes of one body region: each block is recorded at
`start + childOffset` where `childOffset` accumulates the sizes of the
previous siblings (`collectContentNodes`, inner `forEach`). -/
def collectFromBlocks (start : ℤ) : List Block → List NodePos
  | [] => []
  | b :: bs => ⟨b, start⟩ :: collectFromBlocks (start + (b.size : ℤ)) bs

/-- Content nodes contributed by one page at offset `pageOffset`: header and
footer regions are skipped; the body's children are collected at
`pageOffset + (bodyRegionOffset + 1) + (childOffset + 1)`. -/
def collectPage (pageOffset : ℤ) (p : Page) : List NodePos :=
  collectFromBlocks (pageOffset + (getMaybeNodeSize p.header : ℤ) + 1 + 1) p.blocks

/-- Content nodes of a list of pages starting at offset `pageOffset`. -/
def collectPages (pageOffset : ℤ) : List Page → List NodePos
  | [] => []
  | p :: ps => collectPage pageOffset p ++ collectPages (pageOffset + (p.nodeSize : ℤ)) ps

/-- The model of `collectContentNodes` for a fully paginated document: walk
the pages in order and collect each body's children with their positions. -/
def collectContentNodes (doc : List Page) : List NodePos :=
  collectPages 0 doc

/-- The cursor map (`CursorMap = Map<number, number>`): an association list in
key insertion order, as a JS `Map` iterates. -/
abbrev CMap : Type := List (ℤ × ℤ)

/-- Key membership, `Map.has`. -/
def mapHas (m : CMap) (k : ℤ) : Bool :=
  List.any m (fun kv => kv.1 = k)

/-- Lookup, `Map.get` (`none` models `undefined`). -/
def mapGet (m : CMap) (k : ℤ) : Option ℤ :=
  Option.map Prod.snd (List.find? (fun kv => kv.1 = k) m)

/-- Update, `Map.set`: replaces the value of an existing key in place (a JS
`Map` keeps the original insertion position), otherwise appends. -/
def mapSet (m : CMap) (k v : ℤ) : CMap :=
  if mapHas m k then List.map (fun kv => if kv.1 = k then (k, v) else kv) m
  else m ++ [(k, v)]

/-- The packing environment: everything `buildNewDocument` reads besides the
old document and the content nodes.  `capFn` is the external body-capacity
computation (body height from page and body attributes); `sbp` stands for
`shouldBreakParagraph`, receiving the paragraph node (resolved from its old
position in the view) and the remaining height. -/
structure PackEnv where
  capFn : PageAttrsB → BodyAttrs → ℤ
  defaultPageAttrs : PageAttrsB
  defaultBodyAttrs : BodyAttrs
  defaultHeaderAttrs : HFAttrs
  defaultFooterAttrs : HFAttrs
  enableHeader : Bool
  enableFooter : Bool
  hasHeaderFooterType : Bool
  isPasteOperation : Bool
  sbp : Block → ℤ → Bool

/-- The bundle returned by the per-page attribute resolver
(`getPaginationNodeAttributes`): page attributes, region attributes and the
body's pixel height. -/
structure NodeAttributes where
  pageNodeAttributes : PageAttrsB
  headerAttrs : HFAttrs
  bodyAttrs : BodyAttrs
  footerAttrs : HFAttrs
  bodyHeight : ℤ

/-- Modelled from the spec: `getPaginationNodeAttributes`
(utils/nodes/page/attributes/getPageAttributes.ts, not in the provided
sources) resolves per-page attributes — "copied from the page being replaced,
or defaulted for newly created pages" (§3) — and the body capacity supplied
per page by the external attribute resolver (§3, §6). -/
def getPaginationNodeAttributes (env : PackEnv) (doc : List Page) (pageNum : Nat) :
    NodeAttributes :=
  match doc.get? pageNum with
  | some p =>
      { pageNodeAttributes := p.attrs
        headerAttrs := (Option.map HeaderFooterNode.attrs p.header).getD env.defaultHeaderAttrs
        bodyAttrs := p.bodyAttrs
        footerAttrs := (Option.map HeaderFooterNode.attrs p.footer).getD env.defaultFooterAttrs
        bodyHeight := env.capFn p.attrs p.bodyAttrs }
  | none =>
      { pageNodeAttributes := env.defaultPageAttrs
        headerAttrs := env.defaultHeaderAttrs
        bodyAttrs := env.defaultBodyAttrs
        footerAttrs := env.defaultFooterAttrs
        bodyHeight := env.capFn env.defaultPageAttrs env.defaultBodyAttrs }

/-- Modelled from the spec: `isPageNumInRange` (utils/nodes/page/pageRange.ts,
not in the provided sources) — whether the old document has a page at this
index. -/
def isPageNumInRange (doc : List Page) (pageNum : Nat) : Bool :=
  pageNum < doc.length

/-- The empty paragraph `paragraphType.create()` used when a default
header/footer region is created: node size 2, no text. -/
def emptyParagraph : Block :=
  { tag := 0, size := 2, height := 0, isParagraph := true }

/-- The closure `constructHeaderFooter` of `buildNewDocument`: reuse the
region node of the existing page at the current index when present (the
region lookup `getPageRegionNode`, not in the provided sources, is modelled
from the spec as the page's region of the requested kind), otherwise create a
default region holding a single empty paragraph; yield nothing when the
schema has no header-footer node type. -/
def constructHeaderFooter (env : PackEnv) (existingPageNode : Option Page)
    (regionIsFooter : Bool) (headerFooterAttrs : HFAttrs) : Option HeaderFooterNode :=
  if !env.hasHeaderFooterType then none
  else
    match existingPageNode with
    | some p =>
        match (if regionIsFooter then p.footer else p.header) with
        | some hfNode => some hfNode
        | none => some ⟨headerFooterAttrs, [emptyParagraph]⟩
    | none => some ⟨headerFooterAttrs, [emptyParagraph]⟩

/-- The closure `constructHeader`: nothing when headers are disabled. -/
def constructHeader (env : PackEnv) (existingPageNode : Option Page)
    (headerFooterAttrs : HFAttrs) : Option HeaderFooterNode :=
  if !env.enableHeader then none
  else constructHeaderFooter env existingPageNode false headerFooterAttrs

/-- The closure `constructFooter`: nothing when footers are disabled. -/
def constructFooter (env : PackEnv) (existingPageNode : Option Page)
    (headerFooterAttrs : HFAttrs) : Option HeaderFooterNode :=
  if !env.enableFooter then none
  else constructHeaderFooter env existingPageNode true headerFooterAttrs

/-- The mutable state of `buildNewDocument`'s packing loop.  The final
`pageNum--` of the source (taken when the last page is empty) has no
observable effect and is not modelled; `pageNum` is therefore a natural. -/
structure PackState where
  pageNum : Nat
  pages : List Page
  existingPageNode : Option Page
  resolved : NodeAttributes
  currentPageHeader : Option HeaderFooterNode
  currentPageContent : List Block
  currentHeight : ℤ
  oldToNewPosMap : CMap
  cumulativeNewDocPos : ℤ

/-- The per-block break decision of the packing loop: `isPageFull` is
`currentHeight + nodeHeight > bodyHeight`; a full page breaks immediately for
non-paragraph nodes, while paragraphs consult the remaining height — `≤ 0`
during a paste, `shouldBreakParagraph` otherwise. -/
def shouldBreakComputation (env : PackEnv) (bodyHeight currentHeight : ℤ)
    (node : Block) : Bool :=
  let isPageFull := decide (bodyHeight < currentHeight + node.height)
  if isPageFull && node.isParagraph then
    let remainingHeight := bodyHeight - currentHeight
    if env.isPasteOperation then decide (remainingHeight ≤ 0)
    else env.sbp node remainingHeight
  else isPageFull

/-- The closure `addPage` combined with `constructPageRegions`: a page node
from the current attributes, the already-constructed header, the body holding
the current page content, and a footer constructed against the existing page
at the current index. -/
def mkPage (env : PackEnv) (s : PackState) : Page :=
  { attrs := s.resolved.pageNodeAttributes
    header := s.currentPageHeader
    bodyAttrs := s.resolved.bodyAttrs
    blocks := s.currentPageContent
    footer := constructFooter env s.existingPageNode s.resolved.footerAttrs }

/-- Closing the current page inside the loop: emit the page, advance the
cumulative position past it (subtracting the already-counted header), advance
`pageNum`, refresh the attributes only when the old document still has a page
at the new index, and construct the next page's header. -/
def closePage (env : PackEnv) (doc : List Page) (s : PackState) : PackState :=
  let pageNode := mkPage env s
  let pages := s.pages ++ [pageNode]
  let cum := s.cumulativeNewDocPos + (pageNode.nodeSize : ℤ) - (getMaybeNodeSize s.currentPageHeader : ℤ)
  let pageNum := s.pageNum + 1
  let existingPageNode := doc.get? pageNum
  let resolved :=
    if isPageNumInRange doc pageNum then getPaginationNodeAttributes env doc pageNum
    else s.resolved
  let currentPageHeader := constructHeader env existingPageNode resolved.headerAttrs
  { pageNum := pageNum
    pages := pages
    existingPageNode := existingPageNode
    resolved := resolved
    currentPageHeader := currentPageHeader
    currentPageContent := []
    currentHeight := 0
    oldToNewPosMap := s.oldToNewPosMap
    cumulativeNewDocPos := cum + (getMaybeNodeSize currentPageHeader : ℤ) }

/-- One iteration of the packing loop over a content node: decide the break,
possibly close the page, record the node's new position and append it to the
current page. -/
def packStep (env : PackEnv) (doc : List Page) (s : PackState) (np : NodePos) : PackState :=
  let node := np.node
  let shouldBreakHere := shouldBreakComputation env s.resolved.bodyHeight s.currentHeight node
  let s1 :=
    if shouldBreakHere && !s.currentPageContent.isEmpty then closePage env doc s
    else s
  let nodeStartPosInNewDoc :=
    s1.cumulativeNewDocPos + ((s1.currentPageContent.map Block.size).sum : ℤ)
  { s1 with
    oldToNewPosMap := mapSet s1.oldToNewPosMap np.pos nodeStartPosInNewDoc
    currentPageContent := s1.currentPageContent ++ [node]
    currentHeight := s1.currentHeight + node.height }

/-- The loop's initial state: attributes resolved for page 0, the first
page's header constructed against the old document's first page, and the
cumulative position `1 (page) + header size + 1 (body)`. -/
def packInit (env : PackEnv) (doc : List Page) : PackState :=
  let resolved := getPaginationNodeAttributes env doc 0
  let existingPageNode := doc.get? 0
  let currentPageHeader := constructHeader env existingPageNode resolved.headerAttrs
  { pageNum := 0
    pages := []
    existingPageNode := existingPageNode
    resolved := resolved
    currentPageHeader := currentPageHeader
    currentPageContent := []
    currentHeight := 0
    oldToNewPosMap := []
    cumulativeNewDocPos := 1 + (getMaybeNodeSize currentPageHeader : ℤ) + 1 }

/-- The function `limitMappedCursorPositions`: cap every mapped position at
the new document's size. -/
def limitMappedCursorPositions (m : CMap) (docSize : ℤ) : CMap :=
  List.map (fun kv => if docSize < kv.2 then (kv.1, docSize) else kv) m

/-- The result of `buildNewDocument`: the new document's pages and the
old-to-new position map. -/
structure BuildResult where
  newDoc : List Page
  oldToNewPosMap : CMap

/-- The model of `buildNewDocument`: fold the packing step over the content
nodes (each carrying its measured height, since `contentNodes` and
`nodeHeights` are built in lock-step), flush the final non-empty page, and
cap the mapped positions at the new document size. -/
def buildNewDocument (env : PackEnv) (doc : List Page) (contentNodes : List NodePos) :
    BuildResult :=
  let s := contentNodes.foldl (packStep env doc) (packInit env doc)
  let pages :=
    if !s.currentPageContent.isEmpty then s.pages ++ [mkPage env s]
    else s.pages
  { newDoc := pages
    oldToNewPosMap := limitMappedCursorPositions s.oldToNewPosMap (docContentSize pages : ℤ) }

/-- One repagination pass over an already-paginated document, as `buildPageView`
performs it: collect the content nodes of the current document and rebuild.
The heights carried by the blocks stand for a height oracle that measures the
same block to the same height in both the old and the new tree. -/
def repaginate (env : PackEnv) (doc : List Page) : BuildResult :=
  buildNewDocument env doc (collectContentNodes doc)

/-- Modelled from the spec: `inRange` (utils/math.ts, not in the provided
sources) — the containing-block search finds "the flow block whose old range
contains the offset" (§4.3 step 2). -/
def inRange (x lo hi : ℤ) : Bool :=
  decide (lo ≤ x ∧ x < hi)

/-- The containing-block search of `mapCursorPosition`: the first collected
node whose old range `[pos, pos + nodeSize)` contains the cursor. -/
def findContaining (contentNodes : List NodePos) (oldCursorPos : ℤ) : Option NodePos :=
  List.find? (fun np => inRange oldCursorPos np.pos (np.pos + (np.node.size : ℤ))) contentNodes

/-- One step of the nearest-key scan: keep the incumbent unless the next key
is strictly closer to the target (the JS loop's `distance < minDistance`). -/
def nearestStep (oldCursorPos : ℤ) (best : Option (ℤ × Nat)) (kv : ℤ × ℤ) :
    Option (ℤ × Nat) :=
  match best with
  | none => some (kv.1, (kv.1 - oldCursorPos).natAbs)
  | some (k, d) =>
      if (kv.1 - oldCursorPos).natAbs < d then some (kv.1, (kv.1 - oldCursorPos).natAbs)
      else some (k, d)

/-- The nearest-key scan of `mapCursorPosition`: fold over the map's keys in
insertion order, keeping the first key of strictly minimal distance; the JS
variable `closestOldPos` starts at the sentinel -1, which the caller tests. -/
def nearestKey (m : CMap) (oldCursorPos : ℤ) : ℤ :=
  match m.foldl (nearestStep oldCursorPos) none with
  | some (k, _) => k
  | none => -1

/-- The function `mapCursorPosition`: exact map hit, then containing-block
translation (with the error branch returning 0 when the containing node's
start is missing from the map), then the nearest-neighbour key, and `null`
when the map has no keys at all. -/
def mapCursorPosition (contentNodes : List NodePos) (oldCursorPos : ℤ) (m : CMap)
    (newDocContentSize : ℤ) : Option ℤ :=
  if mapHas m oldCursorPos then mapGet m oldCursorPos
  else
    match findContaining contentNodes oldCursorPos with
    | some np =>
        let offsetInNode := oldCursorPos - np.pos
        match mapGet m np.pos with
        | none => some 0
        | some newNodePos => some (min (newNodePos + offsetInNode) (newDocContentSize - 1))
    | none =>
        let closestOldPos := nearestKey m oldCursorPos
        if closestOldPos ≠ -1 then mapGet m closestOldPos else none

/-- The cursor-mapping retry loop of `buildPageView` (three attempts): each
iteration first recomputes the direct mapping — overwriting the previous
iteration's ±1 retry result, since `mapCursorPosition` is deterministic —
and breaks only on a non-null direct mapping. -/
def mapCursorWithRetries (contentNodes : List NodePos) (m : CMap) (size : ℤ)
    (oldCursorPos : ℤ) : Option ℤ :=
  let attempt0 := mapCursorPosition contentNodes oldCursorPos m size
  if attempt0.isSome then attempt0
  else
    let _retry0 := mapCursorPosition contentNodes (oldCursorPos - 1) m size
    let attempt1 := mapCursorPosition contentNodes oldCursorPos m size
    if attempt1.isSome then attempt1
    else
      let _retry1 := mapCursorPosition contentNodes (oldCursorPos + 1) m size
      mapCursorPosition contentNodes oldCursorPos m size

/-- The complete remap of `buildPageView`: the retry loop followed by the
clamp `Math.max(0, Math.min(newCursorPos, newDocContentSize - 1))`, applied
only when a position was found. -/
def remapCursorPos (contentNodes : List NodePos) (m : CMap) (size : ℤ)
    (oldCursorPos : ℤ) : Option ℤ :=
  Option.map (fun p => max 0 (min p (size - 1)))
    (mapCursorWithRetries contentNodes m size oldCursorPos)

/-- Modelled from the spec: `shouldBreakParagraph` (utils/nodes/paragraph.ts,
not in the provided sources) for normal (typed) edits — "a stricter
remaining-capacity check that can break mid-sequence as soon as the next
block would overflow" (§4.2 step 5): break exactly when the paragraph's
height exceeds the remaining height. -/
def strictShouldBreakParagraph (node : Block) (remainingHeight : ℤ) : Bool :=
  decide (remainingHeight < node.height)

/-- Cumulative measured height of a list of blocks. -/
def heightSum (bs : List Block) : ℤ :=
  (bs.map Block.height).sum

/-- The body capacity the packing loop used for an emitted page: the external
capacity computation applied to the attributes the page was created with. -/
def pageCap (env : PackEnv) (p : Page) : ℤ :=
  env.capFn p.attrs p.bodyAttrs

/-- Starting from cumulative height `cur`, each block of the list in turn is
accepted by the break decision (no page break fires before any of them). -/
def fitsFrom (env : PackEnv) (cap : ℤ) : ℤ → List Block → Prop
  | _, [] => True
  | cur, b :: bs =>
      shouldBreakComputation env cap cur b = false ∧ fitsFrom env cap (cur + b.height) bs

/-- No page break fires at any block of the page after its first one. -/
def NoMidBreak (env : PackEnv) (p : Page) : Prop :=
  ∀ b bs, p.blocks = b :: bs → fitsFrom env (pageCap env p) b.height bs

/-- The break decision fires for the first block of `q` when the page `p` is
complete: the break that separates two consecutive emitted pages is forced. -/
def ChainLink (env : PackEnv) (p q : Page) : Prop :=
  ∀ b bs, q.blocks = b :: bs →
    shouldBreakComputation env (pageCap env p) (heightSum p.blocks) b = true

/-- Every break between consecutive pages of the list is forced. -/
def ForcedChain (env : PackEnv) : List Page → Prop
  | [] => True
  | [_] => True
  | p :: q :: rest => ChainLink env p q ∧ ForcedChain env (q :: rest)

/-- The shape invariant of every document the packing loop emits: each page
has a non-empty body, header/footer presence determined by the options and
the schema, no mid-page break, and forced breaks between pages. -/
def PageWF (env : PackEnv) (p : Page) : Prop :=
  p.blocks ≠ [] ∧
  p.header.isSome = (env.enableHeader && env.hasHeaderFooterType) ∧
  p.footer.isSome = (env.enableFooter && env.hasHeaderFooterType) ∧
  NoMidBreak env p

/-- The full output invariant of `buildNewDocument`. -/
def PackWF (env : PackEnv) (G : List Page) : Prop :=
  (∀ p ∈ G, PageWF env p) ∧ ForcedChain env G

/-! Concrete fixtures used by the scenario theorems, the counterexamples and
the witnesses. -/

/-- A test environment: constant body capacity 120, default attributes empty,
the strict paragraph-break check, and configurable region/paste switches. -/
def testEnv (paste enableH enableF : Bool) : PackEnv :=
  { capFn := fun _ _ => 120
    defaultPageAttrs := ⟨0⟩
    defaultBodyAttrs := ⟨0⟩
    defaultHeaderAttrs := ⟨some .header, none⟩
    defaultFooterAttrs := ⟨some .footer, none⟩
    enableHeader := enableH
    enableFooter := enableF
    hasHeaderFooterType := true
    isPasteOperation := paste
    sbp := strictShouldBreakParagraph }

/-- A paragraph block of node size 2 with the given identity and height. -/
def testParagraph (t : Nat) (h : ℤ) : Block :=
  { tag := t, size := 2, height := h, isParagraph := true }

/-- Five measured paragraphs of height 50 at their collected old positions
in a single-body document. -/
def fiveParagraphs : List NodePos :=
  [⟨testParagraph 1 50, 2⟩, ⟨testParagraph 2 50, 4⟩, ⟨testParagraph 3 50, 6⟩,
   ⟨testParagraph 4 50, 8⟩, ⟨testParagraph 5 50, 10⟩]

/-- Two measured paragraphs of height 100 (each fits a 120-capacity page
alone, together they overflow it). -/
def twoTallParagraphs : List NodePos :=
  [⟨testParagraph 1 100, 2⟩, ⟨testParagraph 2 100, 4⟩]

/-- A bare page (no header/footer) holding the given blocks. -/
def testPage (bs : List Block) : Page :=
  { attrs := ⟨0⟩, header := none, bodyAttrs := ⟨0⟩, blocks := bs, footer := none }

/-- Two pages of a single short paragraph each: every page satisfies the
capacity invariant, yet greedy repacking merges them. -/
def twoUnderfullPages : List Page :=
  [testPage [testParagraph 1 10], testPage [testParagraph 2 10]]

/-- An old document of one page that carries a header and a footer region. -/
def docWithHeaderFooter : List Page :=
  [{ attrs := ⟨7⟩
     header := some ⟨⟨some .header, none⟩, [testParagraph 8 12]⟩
     bodyAttrs := ⟨7⟩
     blocks := [testParagraph 1 10]
     footer := some ⟨⟨some .footer, none⟩, [testParagraph 9 12]⟩ }]

/-! Trigger controller (src/Plugins/Pagination.ts). -/

/-- The plugin-level tracking variables of `createPaginationPlugin` that the
view-update decision reads (times in milliseconds). -/
structure TriggerState where
  isPaginating : Bool
  lastDocSize : ℤ
  lastCharCount : ℤ
  consecutiveErrors : Nat
  lastErrorTime : ℤ
  lastPasteTime : ℤ

/-- The plugin state stored through the state field of the plugin. -/
structure PluginState where
  lastPaginationTime : ℤ
  pendingPagination : Bool
  wasPasted : Bool

/-- What the view-update callback observes about the current document. -/
structure ViewObservation where
  now : ℤ
  currentDocSize : ℤ
  currentCharCount : ℤ
  docChanged : Bool
  initialLoad : Bool
  hasPageNodes : Bool

/-- The possible outcomes of one view-update evaluation: no run, an
immediate `buildPageView` run, a delayed (50ms timer) run, or a
paste-deferred (100ms timer) run. -/
inductive PaginationRun where
  | noRun
  | immediate
  | delayed
  | pasteDeferred
  deriving DecidableEq

/-- The decision logic of the `update` callback of the pagination plugin's
view: return early while a pass is in flight; suppress everything while the
circuit breaker is tripped (`consecutiveErrors >= MAX_CONSECUTIVE_ERRORS`
and less than 5000ms since the last error); otherwise schedule the
paste-deferred run, the immediate run, or the delayed run. -/
def paginationDecision (ts : TriggerState) (ps : PluginState) (obs : ViewObservation) :
    PaginationRun :=
  if ts.isPaginating then .noRun
  else
    let docSizeChanged := obs.currentDocSize ≠ ts.lastDocSize
    let charCountChanged := 20 < |obs.currentCharCount - ts.lastCharCount|
    let timeSinceLastPagination := obs.now - ps.lastPaginationTime
    let timeSinceLastError := obs.now - ts.lastErrorTime
    let timeSinceLastPaste := obs.now - ts.lastPasteTime
    if 3 ≤ ts.consecutiveErrors ∧ timeSinceLastError < 5000 then .noRun
    else
      let needsImmediatePagination :=
        obs.initialLoad ∨ (obs.docChanged ∧ ¬ obs.hasPageNodes) ∨ ps.pendingPagination ∨
          (charCountChanged ∧ 300 < timeSinceLastPagination)
      let needsPasteHandling := ps.wasPasted ∧ timeSinceLastPaste < 2000
      if needsPasteHandling then .pasteDeferred
      else if needsImmediatePagination then .immediate
      else if docSizeChanged ∧ ¬ needsImmediatePagination ∧ 150 < timeSinceLastPagination then
        .delayed
      else .noRun

/-! Boundary predicates (utils/nodes/body/bodyCondition.ts and
utils/nodes/page/pageCondition.ts). -/

/-- The resolved-position context the boundary predicates inspect: the
absolute position, the document's size, whether the position sits inside a
paragraph, and the enclosing body/paragraph start and end positions (negative
when the enclosing region could not be resolved).  The resolution helpers
(`isPositionWithinParagraph`, `getStartOfBodyAndParagraphPosition`,
`getEndOfBodyAndParagraphPosition`, not in the provided sources) are modelled
from the spec as reads of this context. -/
structure ResolvedPosC where
  pos : ℤ
  docSize : ℤ
  withinParagraph : Bool
  startOfBodyPos : ℤ
  startOfParagraphPos : ℤ
  endOfBodyPos : ℤ
  endOfParagraphPos : ℤ
  deriving DecidableEq

/-- Modelled from the spec: `isPosAtStartOfDocument` (utils/nodes/document.ts,
not in the provided sources) — the position is at the true start of the whole
document (document boundaries short-circuit to true, §4.1). -/
def isPosAtStartOfDocument (p : ResolvedPosC) (_allowTextBlock : Bool) : Bool :=
  p.pos = 0

/-- Modelled from the spec: `isPosAtEndOfDocument` (utils/nodes/document.ts,
not in the provided sources) — the position is at the true end of the whole
document. -/
def isPosAtEndOfDocument (p : ResolvedPosC) : Bool :=
  p.pos = p.docSize

/-- Modelled from the spec: `isAtStartOfNode` (utils/positionCondition.ts, not
in the provided sources), following the identical logic inlined in
`isPosMatchingStartOfPageBodyCondition`: the paragraph is the region's first
child when `startOfBodyPos + 1 = startOfParagraphPos`; the exact check also
requires the position to be one past the paragraph's start. -/
def isAtStartOfNode (pos startOfBodyPos startOfParagraphPos : ℤ)
    (checkExactStart : Bool) : Bool :=
  let isFirstParagraph := decide (startOfBodyPos + 1 = startOfParagraphPos)
  if checkExactStart then isFirstParagraph && decide (pos - 1 = startOfParagraphPos)
  else isFirstParagraph

/-- Modelled from the spec: `isAtEndOfNode` (utils/positionCondition.ts, not
in the provided sources), following the identical logic inlined in
`isPosMatchingEndOfPageBodyCondition`: exact — the position equals the body's
end; otherwise — the paragraph is the region's last child. -/
def isAtEndOfNode (pos endOfBodyPos endOfParagraphPos : ℤ) (checkExactEnd : Bool) : Bool :=
  if checkExactEnd then decide (pos = endOfBodyPos)
  else decide (endOfParagraphPos + 1 = endOfBodyPos)

/-- The predicate `isPosMatchingStartOfBodyCondition` (bodyCondition.ts). -/
def isPosMatchingStartOfBodyCondition (p : ResolvedPosC) (checkExactStart : Bool) : Bool :=
  if isPosAtStartOfDocument p false then true
  else if ¬ p.withinParagraph then false
  else if p.startOfBodyPos < 0 then false
  else if p.startOfParagraphPos < 0 then false
  else isAtStartOfNode p.pos p.startOfBodyPos p.startOfParagraphPos checkExactStart

/-- The predicate `isPosMatchingEndOfBodyCondition` (bodyCondition.ts). -/
def isPosMatchingEndOfBodyCondition (p : ResolvedPosC) (checkExactEnd : Bool) : Bool :=
  if isPosAtEndOfDocument p then true
  else if ¬ p.withinParagraph then false
  else if p.endOfParagraphPos < 0 then false
  else if p.endOfBodyPos < 0 then false
  else isAtEndOfNode p.pos p.endOfBodyPos p.endOfParagraphPos checkExactEnd

/-- The predicate `isPosMatchingStartOfPageBodyCondition` (pageCondition.ts),
with the first-paragraph and exact-start logic written inline as in the
source. -/
def isPosMatchingStartOfPageBodyCondition (p : ResolvedPosC) (checkExactStart : Bool) : Bool :=
  if isPosAtStartOfDocument p false then true
  else if ¬ p.withinParagraph then false
  else if p.startOfBodyPos < 0 then false
  else if p.startOfParagraphPos < 0 then false
  else
    let isFirstParagraph := decide (p.startOfBodyPos + 1 = p.startOfParagraphPos)
    if checkExactStart then isFirstParagraph && decide (p.pos - 1 = p.startOfParagraphPos)
    else isFirstParagraph

/-- The predicate `isPosMatchingEndOfPageBodyCondition` (pageCondition.ts),
with the exact-end and last-child logic written inline as in the source. -/
def isPosMatchingEndOfPageBodyCondition (p : ResolvedPosC) (checkExactEnd : Bool) : Bool :=
  if isPosAtEndOfDocument p then true
  else if ¬ p.withinParagraph then false
  else if p.endOfParagraphPos < 0 then false
  else if p.endOfBodyPos < 0 then false
  else if checkExactEnd then decide (p.pos = p.endOfBodyPos)
  else decide (p.endOfParagraphPos + 1 = p.endOfBodyPos)

/-! Page-number attribute resolution (utils/nodes/headerFooter/headerFooter.ts
and src/constants/pageRegions.ts). -/

/-- The constant `DEFAULT_PAGE_NUMBER_OPTIONS` (header defaults): hidden,
left-aligned, bare page-number format. -/
def DEFAULT_PAGE_NUMBER_OPTIONS : PageNumberOptions :=
  { show_ := false, position := .left, format := "\x7bn\x7d" }

/-- The constant `DEFAULT_FOOTER_PAGE_NUMBER_OPTIONS` (footer defaults):
shown, left-aligned, bare page-number format. -/
def DEFAULT_FOOTER_PAGE_NUMBER_OPTIONS : PageNumberOptions :=
  { show_ := true, position := .left, format := "\x7bn\x7d" }

/-- The function `getHeaderFooterNodeType`: the node's `type` attribute. -/
def getHeaderFooterNodeType (attrs : HFAttrs) : Option HFType :=
  attrs.type

/-- The object spread `{ ...defaultOptions, ...attrs.pageNumber }`: every
field stored in the attribute overrides the default. -/
def mergePageNumberOptions (d : PageNumberOptions) (stored : PartialPageNumberOptions) :
    PageNumberOptions :=
  { show_ := stored.show_.getD d.show_
    position := stored.position.getD d.position
    format := stored.format.getD d.format }

/-- The function `getHeaderFooterNodePageNumber`: with no stored `pageNumber`
attribute, the footer defaults for footer nodes and the header defaults
otherwise; with a stored attribute, the type's defaults merged with
(overridden by) the stored fields. -/
def getHeaderFooterNodePageNumber (attrs : HFAttrs) : PageNumberOptions :=
  let nodeType := getHeaderFooterNodeType attrs
  match attrs.pageNumber with
  | none =>
      if nodeType = some .footer then DEFAULT_FOOTER_PAGE_NUMBER_OPTIONS
      else DEFAULT_PAGE_NUMBER_OPTIONS
  | some stored =>
      let defaultOptions :=
        if nodeType = some .footer then DEFAULT_FOOTER_PAGE_NUMBER_OPTIONS
        else DEFAULT_PAGE_NUMBER_OPTIONS
      mergePageNumberOptions defaultOptions stored

/-- Two measured paragraphs of height 50 (both fit one 120-capacity page). -/
def twoShortParagraphs : List NodePos :=
  [⟨testParagraph 1 50, 2⟩, ⟨testParagraph 2 50, 4⟩]

/-- The single page the packing loop produces from `twoShortParagraphs` under
`testEnv false false false`. -/
def c2FittedPage : Page :=
  { attrs := ⟨0⟩, header := none, bodyAttrs := ⟨0⟩
    blocks := [testParagraph 1 50, testParagraph 2 50], footer := none }

/-- The page rebuilt from `docWithHeaderFooter` with both regions enabled. -/
def c7RebuiltPage : Page :=
  { attrs := ⟨7⟩
    header := some ⟨⟨some HFType.header, none⟩, [testParagraph 8 12]⟩
    bodyAttrs := ⟨7⟩
    blocks := [testParagraph 1 10]
    footer := some ⟨⟨some HFType.footer, none⟩, [testParagraph 9 12]⟩ }

/-- The commit test of `buildPageView`: a replacement transaction is
dispatched exactly when the rebuilt content differs from the current one
(`!newDoc.content.eq(doc.content)`). -/
def dispatchesReplacement (env : PackEnv) (doc : List Page) : Prop :=
  (repaginate env doc).newDoc ≠ doc

instance (env : PackEnv) (doc : List Page) :
    Decidable (dispatchesReplacement env doc) := by
  unfold dispatchesReplacement
  infer_instance

/-- A resolved position at the very start of the document that is not inside
a paragraph and whose enclosing positions are unresolved. -/
def unresolvedAtDocStart : ResolvedPosC :=
  { pos := 0, docSize := 10, withinParagraph := false, startOfBodyPos := -1
    startOfParagraphPos := -1, endOfBodyPos := -1, endOfParagraphPos := -1 }

/-! Helper lemmas. -/

theorem constructHeaderFooter_isSome (env : PackEnv) (e : Option Page) (f : Bool)
    (a : HFAttrs) :
    (constructHeaderFooter env e f a).isSome = env.hasHeaderFooterType := by
  unfold constructHeaderFooter
  cases h : env.hasHeaderFooterType <;> simp
  cases e with
  | none => rfl
  | some p =>
      cases f with
      | false => cases hr : p.header <;> simp [hr]
      | true => cases hr : p.footer <;> simp [hr]

theorem constructHeader_isSome (env : PackEnv) (e : Option Page) (a : HFAttrs) :
    (constructHeader env e a).isSome = (env.enableHeader && env.hasHeaderFooterType) := by
  unfold constructHeader
  cases h : env.enableHeader <;> simp [constructHeaderFooter_isSome]

theorem constructFooter_isSome (env : PackEnv) (e : Option Page) (a : HFAttrs) :
    (constructFooter env e a).isSome = (env.enableFooter && env.hasHeaderFooterType) := by
  unfold constructFooter
  cases h : env.enableFooter <;> simp [constructHeaderFooter_isSome]

theorem resolver_coherent (env : PackEnv) (doc : List Page) (n : Nat) :
    (getPaginationNodeAttributes env doc n).bodyHeight =
      env.capFn (getPaginationNodeAttributes env doc n).pageNodeAttributes
        (getPaginationNodeAttributes env doc n).bodyAttrs := by
  unfold getPaginationNodeAttributes
  cases doc.get? n <;> simp

theorem constructHeader_of_flag (env : PackEnv) (p : Page) (a : HFAttrs)
    (hflag : p.header.isSome = (env.enableHeader && env.hasHeaderFooterType)) :
    constructHeader env (some p) a = p.header := by
  unfold constructHeader constructHeaderFooter
  cases hH : env.enableHeader with
  | false =>
      rw [hH] at hflag
      simp at hflag ⊢
      exact (Option.not_isSome_iff_eq_none.mp (by simp [hflag])).symm
  | true =>
      rw [hH] at hflag
      cases hT : env.hasHeaderFooterType with
      | false =>
          rw [hT] at hflag
          simp at hflag ⊢
          exact (Option.not_isSome_iff_eq_none.mp (by simp [hflag])).symm
      | true =>
          rw [hT] at hflag
          simp at hflag
          obtain ⟨h, hh⟩ := Option.isSome_iff_exists.mp hflag
          simp [hh]

theorem constructFooter_of_flag (env : PackEnv) (p : Page) (a : HFAttrs)
    (hflag : p.footer.isSome = (env.enableFooter && env.hasHeaderFooterType)) :
    constructFooter env (some p) a = p.footer := by
  unfold constructFooter constructHeaderFooter
  cases hH : env.enableFooter with
  | false =>
      rw [hH] at hflag
      simp at hflag ⊢
      exact (Option.not_isSome_iff_eq_none.mp (by simp [hflag])).symm
  | true =>
      rw [hH] at hflag
      cases hT : env.hasHeaderFooterType with
      | false =>
          rw [hT] at hflag
          simp at hflag ⊢
          exact (Option.not_isSome_iff_eq_none.mp (by simp [hflag])).symm
      | true =>
          rw [hT] at hflag
          simp at hflag
          obtain ⟨h, hh⟩ := Option.isSome_iff_exists.mp hflag
          simp [hh]

theorem mkPage_blocks (env : PackEnv) (s : PackState) :
    (mkPage env s).blocks = s.currentPageContent := rfl

theorem closePage_fields (env : PackEnv) (doc : List Page) (s : PackState) :
    (closePage env doc s).pages = s.pages ++ [mkPage env s] ∧
    (closePage env doc s).currentPageContent = [] ∧
    (closePage env doc s).oldToNewPosMap = s.oldToNewPosMap := by
  refine ⟨rfl, rfl, rfl⟩

theorem packStep_blocks (env : PackEnv) (doc : List Page) (s : PackState) (np : NodePos) :
    ((packStep env doc s np).pages.map Page.blocks).flatten ++
      (packStep env doc s np).currentPageContent =
    (s.pages.map Page.blocks).flatten ++ s.currentPageContent ++ [np.node] := by
  unfold packStep
  by_cases h : (shouldBreakComputation env s.resolved.bodyHeight s.currentHeight np.node
      && !s.currentPageContent.isEmpty) = true
  · simp only [h, if_true]
    simp [closePage, mkPage]
  · simp only [Bool.not_eq_true] at h
    simp only [h, Bool.false_eq_true, if_false]
    simp

theorem foldl_packStep_blocks (env : PackEnv) (doc : List Page) (contentNodes : List NodePos) :
    ∀ s : PackState,
      (((contentNodes.foldl (packStep env doc) s).pages.map Page.blocks).flatten ++
        (contentNodes.foldl (packStep env doc) s).currentPageContent) =
      (s.pages.map Page.blocks).flatten ++ s.currentPageContent ++
        contentNodes.map NodePos.node := by
  induction contentNodes with
  | nil => intro s; simp
  | cons np rest ih =>
      intro s
      simp only [List.foldl_cons, List.map_cons]
      rw [ih (packStep env doc s np)]
      rw [packStep_blocks env doc s np]
      simp

theorem buildNewDocument_blocks (env : PackEnv) (doc : List Page)
    (contentNodes : List NodePos) :
    ((buildNewDocument env doc contentNodes).newDoc.map Page.blocks).flatten =
      contentNodes.map NodePos.node := by
  unfold buildNewDocument
  have h := foldl_packStep_blocks env doc contentNodes (packInit env doc)
  set s := contentNodes.foldl (packStep env doc) (packInit env doc) with hs
  simp only [packInit] at h
  simp only [List.map_nil, List.flatten_nil, List.nil_append] at h
  by_cases hc : s.currentPageContent.isEmpty = true
  · have : s.currentPageContent = [] := by
      simpa [List.isEmpty_iff] using hc
    simp only [hc, Bool.not_true, Bool.false_eq_true, if_false]
    rw [← h, this]
    simp
  · simp only [Bool.not_eq_true] at hc
    simp only [hc, Bool.not_false, if_true]
    rw [← h]
    simp [mkPage]

theorem mapGet_isSome_iff (m : CMap) (k : ℤ) :
    (mapGet m k).isSome = true ↔ ∃ kv ∈ m, kv.1 = k := by
  simp [mapGet, List.find?_isSome]

theorem mapHas_iff (m : CMap) (k : ℤ) :
    mapHas m k = true ↔ ∃ kv ∈ m, kv.1 = k := by
  simp [mapHas, List.any_eq_true]

theorem key_mem_mapSet_preserve (m : CMap) (k v k' : ℤ)
    (h : ∃ kv ∈ m, kv.1 = k') : ∃ kv ∈ mapSet m k v, kv.1 = k' := by
  obtain ⟨kv, hmem, hk⟩ := h
  unfold mapSet
  by_cases hhas : mapHas m k = true
  · simp only [hhas, if_true]
    by_cases heq : kv.1 = k
    · exact ⟨(k, v), List.mem_map.mpr ⟨kv, hmem, by simp [heq]⟩, by simp [← heq, hk]⟩
    · exact ⟨kv, List.mem_map.mpr ⟨kv, hmem, by simp [heq]⟩, hk⟩
  · simp only [hhas, if_false]
    exact ⟨kv, List.mem_append_left _ hmem, hk⟩

theorem key_mem_mapSet_self (m : CMap) (k v : ℤ) :
    ∃ kv ∈ mapSet m k v, kv.1 = k := by
  unfold mapSet
  by_cases hhas : mapHas m k = true
  · simp only [hhas, if_true]
    obtain ⟨kv, hmem, hk⟩ := (mapHas_iff m k).mp hhas
    exact ⟨(k, v), List.mem_map.mpr ⟨kv, hmem, by simp [hk]⟩, rfl⟩
  · simp only [hhas, if_false]
    exact ⟨(k, v), List.mem_append_right _ (by simp), rfl⟩

theorem key_mem_limit (m : CMap) (d : ℤ) (k : ℤ)
    (h : ∃ kv ∈ m, kv.1 = k) : ∃ kv ∈ limitMappedCursorPositions m d, kv.1 = k := by
  obtain ⟨kv, hmem, hk⟩ := h
  unfold limitMappedCursorPositions
  by_cases hc : d < kv.2
  · exact ⟨(kv.1, d), List.mem_map.mpr ⟨kv, hmem, by simp [hc]⟩, hk⟩
  · exact ⟨kv, List.mem_map.mpr ⟨kv, hmem, by simp [hc]⟩, hk⟩

theorem key_mem_mapSet_orig (m : CMap) (k v : ℤ) (kv : ℤ × ℤ)
    (h : kv ∈ mapSet m k v) : kv.1 = k ∨ ∃ kv' ∈ m, kv'.1 = kv.1 := by
  unfold mapSet at h
  by_cases hhas : mapHas m k = true
  · simp only [hhas, if_true] at h
    obtain ⟨kv', hmem, heq⟩ := List.mem_map.mp h
    by_cases hk : kv'.1 = k
    · rw [if_pos hk] at heq
      exact Or.inl (by rw [← heq])
    · rw [if_neg hk] at heq
      exact Or.inr ⟨kv', hmem, by rw [heq]⟩
  · simp only [hhas, Bool.false_eq_true, if_false] at h
    rcases List.mem_append.mp h with hm | hm
    · exact Or.inr ⟨kv, hm, rfl⟩
    · simp only [List.mem_singleton] at hm
      exact Or.inl (by rw [hm])

theorem key_mem_limit_orig (m : CMap) (d : ℤ) (kv : ℤ × ℤ)
    (h : kv ∈ limitMappedCursorPositions m d) : ∃ kv' ∈ m, kv'.1 = kv.1 := by
  unfold limitMappedCursorPositions at h
  obtain ⟨kv', hmem, heq⟩ := List.mem_map.mp h
  refine ⟨kv', hmem, ?_⟩
  by_cases hc : d < kv'.2
  · rw [if_pos hc] at heq
    rw [← heq]
  · rw [if_neg hc] at heq
    rw [heq]

theorem packStep_map (env : PackEnv) (doc : List Page) (s : PackState) (np : NodePos) :
    ∃ v, (packStep env doc s np).oldToNewPosMap = mapSet s.oldToNewPosMap np.pos v := by
  unfold packStep
  by_cases h : (shouldBreakComputation env s.resolved.bodyHeight s.currentHeight np.node
      && !s.currentPageContent.isEmpty) = true
  · simp only [h, if_true]
    exact ⟨_, rfl⟩
  · simp only [Bool.not_eq_true] at h
    simp only [h, Bool.false_eq_true, if_false]
    exact ⟨_, rfl⟩

theorem foldl_packStep_key (env : PackEnv) (doc : List Page) (contentNodes : List NodePos) :
    ∀ s : PackState, ∀ k : ℤ,
      ((∃ kv ∈ s.oldToNewPosMap, kv.1 = k) ∨ (∃ np ∈ contentNodes, np.pos = k)) →
      ∃ kv ∈ (contentNodes.foldl (packStep env doc) s).oldToNewPosMap, kv.1 = k := by
  induction contentNodes with
  | nil =>
      intro s k h
      simp only [List.foldl_nil]
      cases h with
      | inl h => exact h
      | inr h => simp at h
  | cons np rest ih =>
      intro s k h
      simp only [List.foldl_cons]
      obtain ⟨v, hv⟩ := packStep_map env doc s np
      apply ih
      cases h with
      | inl h =>
          exact Or.inl (by rw [hv]; exact key_mem_mapSet_preserve _ _ _ _ h)
      | inr h =>
          obtain ⟨np', hmem, hk⟩ := h
          rcases List.mem_cons.mp hmem with heq | hmem'
          · subst heq
            exact Or.inl (by rw [hv, ← hk]; exact key_mem_mapSet_self _ _ _)
          · exact Or.inr ⟨np', hmem', hk⟩

theorem foldl_packStep_key_orig (env : PackEnv) (doc : List Page)
    (contentNodes : List NodePos) :
    ∀ s : PackState, ∀ kv ∈ (contentNodes.foldl (packStep env doc) s).oldToNewPosMap,
      (∃ kv' ∈ s.oldToNewPosMap, kv'.1 = kv.1) ∨ ∃ np ∈ contentNodes, np.pos = kv.1 := by
  induction contentNodes with
  | nil =>
      intro s kv h
      simp only [List.foldl_nil] at h
      exact Or.inl ⟨kv, h, rfl⟩
  | cons np rest ih =>
      intro s kv h
      simp only [List.foldl_cons] at h
      obtain ⟨v, hv⟩ := packStep_map env doc s np
      rcases ih (packStep env doc s np) kv h with ⟨kv', hmem', hk'⟩ | hrest
      · rw [hv] at hmem'
        rcases key_mem_mapSet_orig _ _ _ _ hmem' with hkk | ⟨kv₀, hmem₀, hk₀⟩
        · exact Or.inr ⟨np, List.mem_cons_self _ _, by rw [← hk', hkk]⟩
        · exact Or.inl ⟨kv₀, hmem₀, hk₀.trans hk'⟩
      · obtain ⟨np', hmem', hk'⟩ := hrest
        exact Or.inr ⟨np', List.mem_cons_of_mem _ hmem', hk'⟩

theorem buildNewDocument_keys_nonneg (env : PackEnv) (doc : List Page)
    (contentNodes : List NodePos) (hpos : ∀ np ∈ contentNodes, (0 : ℤ) ≤ np.pos) :
    ∀ kv ∈ (buildNewDocument env doc contentNodes).oldToNewPosMap, (0 : ℤ) ≤ kv.1 := by
  intro kv h
  unfold buildNewDocument at h
  obtain ⟨kv', hmem', hk'⟩ := key_mem_limit_orig _ _ _ h
  rcases foldl_packStep_key_orig env doc contentNodes (packInit env doc) kv' hmem' with
    ⟨kv₀, hmem₀, _⟩ | ⟨np, hmem₀, hk₀⟩
  · simp [packInit] at hmem₀
  · rw [← hk', ← hk₀]
    exact hpos np hmem₀

theorem buildNewDocument_key_isSome (env : PackEnv) (doc : List Page)
    (contentNodes : List NodePos) (np : NodePos) (h : np ∈ contentNodes) :
    (mapGet (buildNewDocument env doc contentNodes).oldToNewPosMap np.pos).isSome = true := by
  unfold buildNewDocument
  rw [mapGet_isSome_iff]
  apply key_mem_limit
  exact foldl_packStep_key env doc contentNodes (packInit env doc) np.pos
    (Or.inr ⟨np, h, rfl⟩)

theorem nearestStep_isSome (pos : ℤ) (acc : Option (ℤ × Nat)) (kv : ℤ × ℤ) :
    (nearestStep pos acc kv).isSome = true := by
  unfold nearestStep
  match acc with
  | none => rfl
  | some (k, d) =>
      by_cases h : (kv.1 - pos).natAbs < d <;> simp [h]

theorem nearestFold_isSome (pos : ℤ) :
    ∀ (m : CMap) (acc : Option (ℤ × Nat)), acc.isSome = true ∨ m ≠ [] →
      (m.foldl (nearestStep pos) acc).isSome = true := by
  intro m
  induction m with
  | nil =>
      intro acc h
      simp only [List.foldl_nil]
      cases h with
      | inl h => exact h
      | inr h => exact absurd rfl h
  | cons kv rest ih =>
      intro acc _
      simp only [List.foldl_cons]
      exact ih (nearestStep pos acc kv) (Or.inl (nearestStep_isSome pos acc kv))

theorem nearestFold_key (pos : ℤ) :
    ∀ (m : CMap) (acc : Option (ℤ × Nat)) (k : ℤ) (d : Nat),
      m.foldl (nearestStep pos) acc = some (k, d) →
      (∃ d', acc = some (k, d')) ∨ ∃ kv ∈ m, kv.1 = k := by
  intro m
  induction m with
  | nil =>
      intro acc k d h
      simp only [List.foldl_nil] at h
      exact Or.inl ⟨d, h⟩
  | cons kv rest ih =>
      intro acc k d h
      simp only [List.foldl_cons] at h
      rcases ih (nearestStep pos acc kv) k d h with ⟨d', hd'⟩ | hmem
      · unfold nearestStep at hd'
        match hacc : acc with
        | none =>
            simp at hd'
            exact Or.inr ⟨kv, List.mem_cons_self _ _, hd'.1⟩
        | some (k₀, d₀) =>
            by_cases hlt : (kv.1 - pos).natAbs < d₀
            · simp [hlt] at hd'
              exact Or.inr ⟨kv, List.mem_cons_self _ _, hd'.1⟩
            · simp [hlt] at hd'
              exact Or.inl ⟨d₀, by rw [hd'.1]⟩
      · obtain ⟨kv', hmem', hk'⟩ := hmem
        exact Or.inr ⟨kv', List.mem_cons_of_mem _ hmem', hk'⟩

theorem nearestKey_mem (m : CMap) (pos : ℤ) (h : m ≠ []) :
    ∃ kv ∈ m, kv.1 = nearestKey m pos := by
  have hs := nearestFold_isSome pos m none (Or.inr h)
  obtain ⟨⟨k, d⟩, hfold⟩ := Option.isSome_iff_exists.mp hs
  unfold nearestKey
  rw [hfold]
  rcases nearestFold_key pos m none k d hfold with ⟨d', hd'⟩ | hmem
  · simp at hd'
  · exact hmem

theorem mapCursorPosition_isSome (nodes : List NodePos) (pos : ℤ) (m : CMap) (size : ℤ)
    (h : m ≠ []) (hkeys : ∀ kv ∈ m, (0 : ℤ) ≤ kv.1) :
    (mapCursorPosition nodes pos m size).isSome = true := by
  unfold mapCursorPosition
  by_cases hhas : mapHas m pos = true
  · simp only [hhas, if_true]
    exact (mapGet_isSome_iff m pos).mpr ((mapHas_iff m pos).mp hhas)
  · simp only [hhas, Bool.false_eq_true, if_false]
    match hfc : findContaining nodes pos with
    | some np =>
        match hget : mapGet m np.pos with
        | none => simp [hget]
        | some newNodePos => simp [hget]
    | none =>
        obtain ⟨kv, hmem, hk⟩ := nearestKey_mem m pos h
        have hnn : (0 : ℤ) ≤ nearestKey m pos := hk ▸ hkeys kv hmem
        have hne : nearestKey m pos ≠ -1 := by omega
        simp only [hne, ne_eq, not_false_eq_true, if_true]
        exact (mapGet_isSome_iff m (nearestKey m pos)).mpr ⟨kv, hmem, hk⟩

theorem mapCursorWithRetries_of_isSome (nodes : List NodePos) (m : CMap) (size pos : ℤ)
    (h : (mapCursorPosition nodes pos m size).isSome = true) :
    mapCursorWithRetries nodes m size pos = mapCursorPosition nodes pos m size := by
  unfold mapCursorWithRetries
  simp [h]

theorem remapCursorPos_total (nodes : List NodePos) (m : CMap) (size pos : ℤ)
    (hm : m ≠ []) (hkeys : ∀ kv ∈ m, (0 : ℤ) ≤ kv.1) (hsize : 1 ≤ size) :
    ∃ r, remapCursorPos nodes m size pos = some r ∧ 0 ≤ r ∧ r < size := by
  have h0 := mapCursorPosition_isSome nodes pos m size hm hkeys
  obtain ⟨p, hp⟩ := Option.isSome_iff_exists.mp h0
  refine ⟨max 0 (min p (size - 1)), ?_, le_max_left _ _, ?_⟩
  · unfold remapCursorPos
    rw [mapCursorWithRetries_of_isSome nodes m size pos h0, hp]
    rfl
  · have h1 : min p (size - 1) ≤ size - 1 := min_le_right _ _
    have h2 : max 0 (min p (size - 1)) ≤ size - 1 :=
      max_le (by omega) h1
    omega

theorem buildNewDocument_map_ne_nil (env : PackEnv) (doc : List Page)
    (contentNodes : List NodePos) (h : contentNodes ≠ []) :
    (buildNewDocument env doc contentNodes).oldToNewPosMap ≠ [] := by
  obtain ⟨np, hnp⟩ := List.exists_mem_of_ne_nil contentNodes h
  have hk := buildNewDocument_key_isSome env doc contentNodes np hnp
  intro hnil
  rw [hnil] at hk
  simp [mapGet] at hk

theorem buildNewDocument_newDoc_ne_nil (env : PackEnv) (doc : List Page)
    (contentNodes : List NodePos) (h : contentNodes ≠ []) :
    (buildNewDocument env doc contentNodes).newDoc ≠ [] := by
  intro hnil
  have hb := buildNewDocument_blocks env doc contentNodes
  rw [hnil] at hb
  simp at hb
  exact h hb

theorem docContentSize_pos (pages : List Page) (h : pages ≠ []) :
    1 ≤ (docContentSize pages : ℤ) := by
  match pages with
  | [] => exact absurd rfl h
  | p :: rest =>
      have h2 : 2 ≤ p.nodeSize := by
        unfold Page.nodeSize
        omega
      have : 2 ≤ docContentSize (p :: rest) := by
        unfold docContentSize
        simp only [List.map_cons, List.sum_cons]
        omega
      omega

/-- Under the non-paste, strict-paragraph-check environment, the break
decision is exactly the overflow test `currentHeight + blockHeight >
capacity`. -/
theorem shouldBreak_strict (env : PackEnv) (hpaste : env.isPasteOperation = false)
    (hsbp : ∀ b r, env.sbp b r = strictShouldBreakParagraph b r)
    (cap cur : ℤ) (b : Block) :
    shouldBreakComputation env cap cur b = decide (cap < cur + b.height) := by
  unfold shouldBreakComputation
  by_cases hfull : cap < cur + b.height
  · cases hp : b.isParagraph with
    | false => simp [hfull, hp]
    | true =>
        simp [hfull, hp, hpaste, hsbp, strictShouldBreakParagraph]
        omega
  · simp [hfull]

/-- The two structural equations of one packing step: the break case. -/
theorem packStep_break (env : PackEnv) (doc : List Page) (s : PackState) (np : NodePos)
    (hb : shouldBreakComputation env s.resolved.bodyHeight s.currentHeight np.node = true)
    (hne : s.currentPageContent ≠ []) :
    packStep env doc s np = { closePage env doc s with
      oldToNewPosMap := mapSet (closePage env doc s).oldToNewPosMap np.pos
        ((closePage env doc s).cumulativeNewDocPos +
          (((closePage env doc s).currentPageContent.map Block.size).sum : ℤ))
      currentPageContent := (closePage env doc s).currentPageContent ++ [np.node]
      currentHeight := (closePage env doc s).currentHeight + np.node.height } := by
  have hcond : (shouldBreakComputation env s.resolved.bodyHeight s.currentHeight np.node
      && !s.currentPageContent.isEmpty) = true := by
    simp [hb, List.isEmpty_iff, hne]
  unfold packStep
  simp only [hcond, if_true]

/-- The two structural equations of one packing step: the no-break case. -/
theorem packStep_nobreak (env : PackEnv) (doc : List Page) (s : PackState) (np : NodePos)
    (hc : (shouldBreakComputation env s.resolved.bodyHeight s.currentHeight np.node
      && !s.currentPageContent.isEmpty) = false) :
    packStep env doc s np = { s with
      oldToNewPosMap := mapSet s.oldToNewPosMap np.pos
        (s.cumulativeNewDocPos + ((s.currentPageContent.map Block.size).sum : ℤ))
      currentPageContent := s.currentPageContent ++ [np.node]
      currentHeight := s.currentHeight + np.node.height } := by
  unfold packStep
  simp only [hc, Bool.false_eq_true, if_false]

theorem closePage_content (env : PackEnv) (doc : List Page) (s : PackState) :
    (closePage env doc s).currentPageContent = [] := rfl

theorem closePage_height (env : PackEnv) (doc : List Page) (s : PackState) :
    (closePage env doc s).currentHeight = 0 := rfl

theorem closePage_pages (env : PackEnv) (doc : List Page) (s : PackState) :
    (closePage env doc s).pages = s.pages ++ [mkPage env s] := rfl

theorem closePage_pageNum (env : PackEnv) (doc : List Page) (s : PackState) :
    (closePage env doc s).pageNum = s.pageNum + 1 := rfl

theorem closePage_existing (env : PackEnv) (doc : List Page) (s : PackState) :
    (closePage env doc s).existingPageNode = doc.get? (s.pageNum + 1) := rfl

theorem closePage_resolved (env : PackEnv) (doc : List Page) (s : PackState) :
    (closePage env doc s).resolved =
      (if isPageNumInRange doc (s.pageNum + 1) = true
       then getPaginationNodeAttributes env doc (s.pageNum + 1)
       else s.resolved) := rfl

theorem closePage_header (env : PackEnv) (doc : List Page) (s : PackState) :
    (closePage env doc s).currentPageHeader =
      constructHeader env (doc.get? (s.pageNum + 1)) (closePage env doc s).resolved.headerAttrs :=
  rfl

theorem closePage_resolved_coherent (env : PackEnv) (doc : List Page) (s : PackState)
    (h2 : s.resolved.bodyHeight =
      env.capFn s.resolved.pageNodeAttributes s.resolved.bodyAttrs) :
    (closePage env doc s).resolved.bodyHeight =
      env.capFn (closePage env doc s).resolved.pageNodeAttributes
        (closePage env doc s).resolved.bodyAttrs := by
  rw [closePage_resolved]
  by_cases hir : isPageNumInRange doc (s.pageNum + 1) = true
  · simp only [hir, if_true]
    exact resolver_coherent env doc (s.pageNum + 1)
  · simp only [hir, if_false]
    exact h2

theorem pageCap_mkPage (env : PackEnv) (s : PackState) :
    pageCap env (mkPage env s) =
      env.capFn s.resolved.pageNodeAttributes s.resolved.bodyAttrs := rfl

theorem heightSum_append (bs cs : List Block) :
    heightSum (bs ++ cs) = heightSum bs + heightSum cs := by
  simp [heightSum]

theorem heightSum_single (b : Block) : heightSum [b] = b.height := by
  simp [heightSum]

/-- Splitting the loop guard: when a step does not close the page even though
the current content is non-empty, the break decision itself was negative. -/
theorem break_false_of_guard_false (env : PackEnv) (s : PackState) (np : NodePos)
    (hc : (shouldBreakComputation env s.resolved.bodyHeight s.currentHeight np.node
      && !s.currentPageContent.isEmpty) = false)
    (hne : s.currentPageContent ≠ []) :
    shouldBreakComputation env s.resolved.bodyHeight s.currentHeight np.node = false := by
  rcases Bool.eq_false_or_eq_true (shouldBreakComputation env s.resolved.bodyHeight
      s.currentHeight np.node) with ht | hf
  · rw [ht] at hc
    simp [List.isEmpty_iff, hne] at hc
  · exact hf

theorem packStep_capacity (env : PackEnv) (doc : List Page)
    (hpaste : env.isPasteOperation = false)
    (hsbp : ∀ b r, env.sbp b r = strictShouldBreakParagraph b r)
    (s : PackState) (np : NodePos)
    (h1 : s.currentHeight = heightSum s.currentPageContent)
    (h2 : s.resolved.bodyHeight =
      env.capFn s.resolved.pageNodeAttributes s.resolved.bodyAttrs)
    (h3 : 2 ≤ s.currentPageContent.length → s.currentHeight ≤ s.resolved.bodyHeight)
    (h4 : ∀ p ∈ s.pages, 2 ≤ p.blocks.length → heightSum p.blocks ≤ pageCap env p) :
    (packStep env doc s np).currentHeight =
        heightSum (packStep env doc s np).currentPageContent ∧
    (packStep env doc s np).resolved.bodyHeight =
        env.capFn (packStep env doc s np).resolved.pageNodeAttributes
          (packStep env doc s np).resolved.bodyAttrs ∧
    (2 ≤ (packStep env doc s np).currentPageContent.length →
        (packStep env doc s np).currentHeight ≤
          (packStep env doc s np).resolved.bodyHeight) ∧
    (∀ p ∈ (packStep env doc s np).pages, 2 ≤ p.blocks.length →
        heightSum p.blocks ≤ pageCap env p) := by
  by_cases hg : (shouldBreakComputation env s.resolved.bodyHeight s.currentHeight np.node
      && !s.currentPageContent.isEmpty) = true
  · have hb : shouldBreakComputation env s.resolved.bodyHeight s.currentHeight
        np.node = true := by
      exact (Bool.and_eq_true _ _).mp hg |>.1
    have hne : s.currentPageContent ≠ [] := by
      have := (Bool.and_eq_true _ _).mp hg |>.2
      simpa [List.isEmpty_iff] using this
    rw [packStep_break env doc s np hb hne]
    refine ⟨?_, ?_, ?_, ?_⟩
    · simp [closePage_content, closePage_height, heightSum_single]
    · simpa using closePage_resolved_coherent env doc s h2
    · intro hlen
      rw [closePage_content] at hlen
      simp at hlen
    · intro p hp hlen
      simp only [closePage_pages] at hp
      rcases List.mem_append.mp hp with hold | hnew
      · exact h4 p hold hlen
      · have hpeq : p = mkPage env s := by simpa using hnew
        subst hpeq
        have hblocks : (mkPage env s).blocks = s.currentPageContent := rfl
        rw [hblocks] at hlen
        rw [hblocks, ← h1, pageCap_mkPage, ← h2]
        exact h3 hlen
  · rw [Bool.not_eq_true] at hg
    rw [packStep_nobreak env doc s np hg]
    refine ⟨?_, h2, ?_, h4⟩
    · simp only [h1]
      rw [heightSum_append, heightSum_single]
    · intro hlen
      simp only [List.length_append, List.length_cons, List.length_nil] at hlen
      have hne : s.currentPageContent ≠ [] := by
        intro hnil
        rw [hnil] at hlen
        simp at hlen
      have hbf := break_false_of_guard_false env s np hg hne
      rw [shouldBreak_strict env hpaste hsbp] at hbf
      simp only [decide_eq_false_iff_not, not_lt] at hbf
      exact hbf

theorem foldl_capacity (env : PackEnv) (doc : List Page)
    (hpaste : env.isPasteOperation = false)
    (hsbp : ∀ b r, env.sbp b r = strictShouldBreakParagraph b r) :
    ∀ (contentNodes : List NodePos) (s : PackState),
      s.currentHeight = heightSum s.currentPageContent →
      s.resolved.bodyHeight =
        env.capFn s.resolved.pageNodeAttributes s.resolved.bodyAttrs →
      (2 ≤ s.currentPageContent.length → s.currentHeight ≤ s.resolved.bodyHeight) →
      (∀ p ∈ s.pages, 2 ≤ p.blocks.length → heightSum p.blocks ≤ pageCap env p) →
      (contentNodes.foldl (packStep env doc) s).currentHeight =
          heightSum (contentNodes.foldl (packStep env doc) s).currentPageContent ∧
      (contentNodes.foldl (packStep env doc) s).resolved.bodyHeight =
          env.capFn (contentNodes.foldl (packStep env doc) s).resolved.pageNodeAttributes
            (contentNodes.foldl (packStep env doc) s).resolved.bodyAttrs ∧
      (2 ≤ (contentNodes.foldl (packStep env doc) s).currentPageContent.length →
          (contentNodes.foldl (packStep env doc) s).currentHeight ≤
            (contentNodes.foldl (packStep env doc) s).resolved.bodyHeight) ∧
      (∀ p ∈ (contentNodes.foldl (packStep env doc) s).pages, 2 ≤ p.blocks.length →
          heightSum p.blocks ≤ pageCap env p) := by
  intro contentNodes
  induction contentNodes with
  | nil =>
      intro s h1 h2 h3 h4
      exact ⟨h1, h2, h3, h4⟩
  | cons np rest ih =>
      intro s h1 h2 h3 h4
      simp only [List.foldl_cons]
      obtain ⟨g1, g2, g3, g4⟩ := packStep_capacity env doc hpaste hsbp s np h1 h2 h3 h4
      exact ih (packStep env doc s np) g1 g2 g3 g4

/-- Capacity respect for non-paste runs with the strict paragraph check:
every emitted page holding at least two blocks fits its body capacity. -/
theorem buildNewDocument_capacity (env : PackEnv) (doc : List Page)
    (contentNodes : List NodePos)
    (hpaste : env.isPasteOperation = false)
    (hsbp : ∀ b r, env.sbp b r = strictShouldBreakParagraph b r) :
    ∀ p ∈ (buildNewDocument env doc contentNodes).newDoc, 2 ≤ p.blocks.length →
      heightSum p.blocks ≤ pageCap env p := by
  unfold buildNewDocument
  obtain ⟨g1, g2, g3, g4⟩ := foldl_capacity env doc hpaste hsbp contentNodes
    (packInit env doc) (by simp [packInit, heightSum])
    (resolver_coherent env doc 0) (by intro h; simp [packInit] at h)
    (by intro p hp; simp [packInit] at hp)
  intro p hp hlen
  set t := contentNodes.foldl (packStep env doc) (packInit env doc) with ht
  by_cases hc : t.currentPageContent.isEmpty = true
  · simp only [hc, Bool.not_true, Bool.false_eq_true, if_false] at hp
    exact g4 p hp hlen
  · rw [Bool.not_eq_true] at hc
    simp only [hc, Bool.not_false, if_true] at hp
    rcases List.mem_append.mp hp with hold | hnew
    · exact g4 p hold hlen
    · have hpeq : p = mkPage env t := by simpa using hnew
      subst hpeq
      have hblocks : (mkPage env t).blocks = t.currentPageContent := rfl
      rw [hblocks] at hlen
      rw [hblocks, ← g1, pageCap_mkPage, ← g2]
      exact g3 hlen

theorem get?_append_singleton {α : Type} (l : List α) (x : α) (i : Nat) (pg : α)
    (h : (l ++ [x]).get? i = some pg) :
    l.get? i = some pg ∨ (i = l.length ∧ pg = x) := by
  rw [List.get?_eq_getElem?] at h
  by_cases hi : i < l.length
  · left
    rw [List.get?_eq_getElem?]
    rw [List.getElem?_append_left hi] at h
    exact h
  · right
    push_neg at hi
    rw [List.getElem?_append_right hi] at h
    have hlen : i < l.length + 1 := by
      have := List.getElem?_eq_some_iff.mp h
      obtain ⟨hw, _⟩ := this
      simp at hw
      omega
    have hieq : i = l.length := by omega
    subst hieq
    simp at h
    exact ⟨rfl, h.symm⟩

theorem packStep_regions (env : PackEnv) (doc : List Page) (s : PackState) (np : NodePos)
    (h1 : s.pageNum = s.pages.length)
    (h2 : s.existingPageNode = doc.get? s.pageNum)
    (h3 : ∃ a, s.currentPageHeader = constructHeader env (doc.get? s.pageNum) a)
    (h4 : ∀ i pg, s.pages.get? i = some pg →
      (∃ a, pg.header = constructHeader env (doc.get? i) a) ∧
      (∃ a, pg.footer = constructFooter env (doc.get? i) a)) :
    (packStep env doc s np).pageNum = (packStep env doc s np).pages.length ∧
    (packStep env doc s np).existingPageNode =
      doc.get? (packStep env doc s np).pageNum ∧
    (∃ a, (packStep env doc s np).currentPageHeader =
      constructHeader env (doc.get? (packStep env doc s np).pageNum) a) ∧
    (∀ i pg, (packStep env doc s np).pages.get? i = some pg →
      (∃ a, pg.header = constructHeader env (doc.get? i) a) ∧
      (∃ a, pg.footer = constructFooter env (doc.get? i) a)) := by
  by_cases hg : (shouldBreakComputation env s.resolved.bodyHeight s.currentHeight np.node
      && !s.currentPageContent.isEmpty) = true
  · have hb := (Bool.and_eq_true _ _).mp hg |>.1
    have hne : s.currentPageContent ≠ [] := by
      have := (Bool.and_eq_true _ _).mp hg |>.2
      simpa [List.isEmpty_iff] using this
    rw [packStep_break env doc s np hb hne]
    refine ⟨?_, ?_, ?_, ?_⟩
    · show (closePage env doc s).pageNum = (closePage env doc s).pages.length
      rw [closePage_pageNum, closePage_pages]
      simp [h1]
    · show (closePage env doc s).existingPageNode = doc.get? (closePage env doc s).pageNum
      rw [closePage_existing, closePage_pageNum]
    · show ∃ a, (closePage env doc s).currentPageHeader =
        constructHeader env (doc.get? (closePage env doc s).pageNum) a
      rw [closePage_header, closePage_pageNum]
      exact ⟨_, rfl⟩
    · intro i pg hpg
      have hpg' : (s.pages ++ [mkPage env s]).get? i = some pg := by
        rw [← closePage_pages env doc s]
        exact hpg
      rcases get?_append_singleton s.pages (mkPage env s) i pg hpg' with hold | ⟨hi, hx⟩
      · exact h4 i pg hold
      · subst hx
        subst hi
        constructor
        · obtain ⟨a, ha⟩ := h3
          refine ⟨a, ?_⟩
          show s.currentPageHeader = _
          rw [ha, h1]
        · refine ⟨s.resolved.footerAttrs, ?_⟩
          show constructFooter env s.existingPageNode s.resolved.footerAttrs = _
          rw [h2, h1]
  · rw [Bool.not_eq_true] at hg
    rw [packStep_nobreak env doc s np hg]
    exact ⟨h1, h2, h3, h4⟩

theorem foldl_regions (env : PackEnv) (doc : List Page) :
    ∀ (contentNodes : List NodePos) (s : PackState),
      s.pageNum = s.pages.length →
      s.existingPageNode = doc.get? s.pageNum →
      (∃ a, s.currentPageHeader = constructHeader env (doc.get? s.pageNum) a) →
      (∀ i pg, s.pages.get? i = some pg →
        (∃ a, pg.header = constructHeader env (doc.get? i) a) ∧
        (∃ a, pg.footer = constructFooter env (doc.get? i) a)) →
      ((contentNodes.foldl (packStep env doc) s).pageNum =
          (contentNodes.foldl (packStep env doc) s).pages.length ∧
        (contentNodes.foldl (packStep env doc) s).existingPageNode =
          doc.get? (contentNodes.foldl (packStep env doc) s).pageNum ∧
        (∃ a, (contentNodes.foldl (packStep env doc) s).currentPageHeader =
          constructHeader env
            (doc.get? (contentNodes.foldl (packStep env doc) s).pageNum) a) ∧
        (∀ i pg, (contentNodes.foldl (packStep env doc) s).pages.get? i = some pg →
          (∃ a, pg.header = constructHeader env (doc.get? i) a) ∧
          (∃ a, pg.footer = constructFooter env (doc.get? i) a))) := by
  intro contentNodes
  induction contentNodes with
  | nil =>
      intro s h1 h2 h3 h4
      exact ⟨h1, h2, h3, h4⟩
  | cons np rest ih =>
      intro s h1 h2 h3 h4
      simp only [List.foldl_cons]
      obtain ⟨g1, g2, g3, g4⟩ := packStep_regions env doc s np h1 h2 h3 h4
      exact ih (packStep env doc s np) g1 g2 g3 g4

/-- Every page of the rebuilt document carries a header (footer) constructed
against the old page at the same index. -/
theorem buildNewDocument_regions (env : PackEnv) (doc : List Page)
    (contentNodes : List NodePos) :
    ∀ i pg, (buildNewDocument env doc contentNodes).newDoc.get? i = some pg →
      (∃ a, pg.header = constructHeader env (doc.get? i) a) ∧
      (∃ a, pg.footer = constructFooter env (doc.get? i) a) := by
  unfold buildNewDocument
  obtain ⟨g1, g2, g3, g4⟩ := foldl_regions env doc contentNodes (packInit env doc)
    rfl rfl ⟨_, rfl⟩ (by intro i pg hpg; simp [packInit] at hpg)
  intro i pg hpg
  set t := contentNodes.foldl (packStep env doc) (packInit env doc) with ht
  by_cases hc : t.currentPageContent.isEmpty = true
  · simp only [hc, Bool.not_true, Bool.false_eq_true, if_false] at hpg
    exact g4 i pg hpg
  · rw [Bool.not_eq_true] at hc
    simp only [hc, Bool.not_false, if_true] at hpg
    rcases get?_append_singleton t.pages (mkPage env t) i pg hpg with hold | ⟨hi, hx⟩
    · exact g4 i pg hold
    · subst hx
      subst hi
      constructor
      · obtain ⟨a, ha⟩ := g3
        refine ⟨a, ?_⟩
        show t.currentPageHeader = _
        rw [ha, g1]
      · refine ⟨t.resolved.footerAttrs, ?_⟩
        show constructFooter env t.existingPageNode t.resolved.footerAttrs = _
        rw [g2, g1]

theorem heightSum_cons (b : Block) (bs : List Block) :
    heightSum (b :: bs) = b.height + heightSum bs := by
  simp [heightSum]

theorem fitsFrom_append_single (env : PackEnv) (cap : ℤ) :
    ∀ (bs : List Block) (cur : ℤ) (x : Block),
      fitsFrom env cap cur bs →
      shouldBreakComputation env cap (cur + heightSum bs) x = false →
      fitsFrom env cap cur (bs ++ [x]) := by
  intro bs
  induction bs with
  | nil =>
      intro cur x _ hx
      rw [heightSum] at hx
      simp at hx
      exact ⟨hx, trivial⟩
  | cons b rest ih =>
      intro cur x hfit hx
      obtain ⟨hb, hrest⟩ := hfit
      refine ⟨hb, ih (cur + b.height) x hrest ?_⟩
      rw [heightSum_cons] at hx
      have : cur + (b.height + heightSum rest) = cur + b.height + heightSum rest := by ring
      rw [this] at hx
      exact hx

theorem forcedChain_append (env : PackEnv) :
    ∀ (G : List Page) (x : Page),
      ForcedChain env G →
      (∀ p, G.getLast? = some p → ChainLink env p x) →
      ForcedChain env (G ++ [x]) := by
  intro G
  induction G with
  | nil => intro x _ _; trivial
  | cons p G' ih =>
      intro x hchain hlink
      cases G' with
      | nil =>
          refine ⟨hlink p rfl, trivial⟩
      | cons q rest =>
          obtain ⟨hpq, hrest⟩ := hchain
          refine ⟨hpq, ih x hrest ?_⟩
          intro p' hp'
          apply hlink
          rw [List.getLast?_cons_cons]
          exact hp'

theorem packStep_packWF (env : PackEnv) (doc : List Page) (s : PackState) (np : NodePos)
    (i1 : s.currentHeight = heightSum s.currentPageContent)
    (i2 : s.resolved.bodyHeight =
      env.capFn s.resolved.pageNodeAttributes s.resolved.bodyAttrs)
    (i3 : s.currentPageHeader.isSome = (env.enableHeader && env.hasHeaderFooterType))
    (i4 : ∀ p ∈ s.pages, PageWF env p)
    (i5 : ForcedChain env s.pages)
    (i6 : s.currentPageContent = [] → s.pages = [])
    (i7 : ∀ b bs, s.currentPageContent = b :: bs →
      fitsFrom env s.resolved.bodyHeight b.height bs)
    (i8 : ∀ b bs p, s.currentPageContent = b :: bs → s.pages.getLast? = some p →
      shouldBreakComputation env (pageCap env p) (heightSum p.blocks) b = true) :
    (packStep env doc s np).currentHeight =
        heightSum (packStep env doc s np).currentPageContent ∧
    (packStep env doc s np).resolved.bodyHeight =
        env.capFn (packStep env doc s np).resolved.pageNodeAttributes
          (packStep env doc s np).resolved.bodyAttrs ∧
    (packStep env doc s np).currentPageHeader.isSome =
        (env.enableHeader && env.hasHeaderFooterType) ∧
    (∀ p ∈ (packStep env doc s np).pages, PageWF env p) ∧
    ForcedChain env (packStep env doc s np).pages ∧
    ((packStep env doc s np).currentPageContent = [] →
        (packStep env doc s np).pages = []) ∧
    (∀ b bs, (packStep env doc s np).currentPageContent = b :: bs →
        fitsFrom env (packStep env doc s np).resolved.bodyHeight b.height bs) ∧
    (∀ b bs p, (packStep env doc s np).currentPageContent = b :: bs →
        (packStep env doc s np).pages.getLast? = some p →
        shouldBreakComputation env (pageCap env p) (heightSum p.blocks) b = true) := by
  by_cases hg : (shouldBreakComputation env s.resolved.bodyHeight s.currentHeight np.node
      && !s.currentPageContent.isEmpty) = true
  · have hb := (Bool.and_eq_true _ _).mp hg |>.1
    have hne : s.currentPageContent ≠ [] := by
      have := (Bool.and_eq_true _ _).mp hg |>.2
      simpa [List.isEmpty_iff] using this
    rw [packStep_break env doc s np hb hne]
    have hmkWF : PageWF env (mkPage env s) := by
      refine ⟨hne, i3, constructFooter_isSome env _ _, ?_⟩
      intro b bs hbs
      rw [pageCap_mkPage, ← i2]
      exact i7 b bs hbs
    refine ⟨?_, ?_, ?_, ?_, ?_, ?_, ?_, ?_⟩
    · simp [closePage_content, closePage_height, heightSum_single]
    · simpa using closePage_resolved_coherent env doc s i2
    · show (closePage env doc s).currentPageHeader.isSome = _
      rw [closePage_header]
      exact constructHeader_isSome env _ _
    · intro p hp
      simp only [closePage_pages] at hp
      rcases List.mem_append.mp hp with hold | hnew
      · exact i4 p hold
      · have : p = mkPage env s := by simpa using hnew
        subst this
        exact hmkWF
    · show ForcedChain env (closePage env doc s).pages
      rw [closePage_pages]
      apply forcedChain_append env s.pages (mkPage env s) i5
      intro p hp
      intro b bs hbs
      have hcontent : (mkPage env s).blocks = s.currentPageContent := rfl
      rw [hcontent] at hbs
      exact i8 b bs p hbs hp
    · intro hcon
      simp only [closePage_content] at hcon
      simp at hcon
    · intro b bs hbs
      simp only [closePage_content, List.nil_append] at hbs
      injection hbs with hb1 hb2
      rw [← hb2]
      exact trivial
    · intro b bs p hbs hlast
      simp only [closePage_content, List.nil_append] at hbs
      injection hbs with hb1 hb2
      rw [← hb1]
      simp only [closePage_pages] at hlast
      rw [List.getLast?_concat] at hlast
      have hpeq : mkPage env s = p := by simpa using hlast
      rw [← hpeq, pageCap_mkPage, ← i2]
      have hhs : heightSum (mkPage env s).blocks = s.currentHeight := i1.symm
      rw [hhs]
      exact hb
  · rw [Bool.not_eq_true] at hg
    rw [packStep_nobreak env doc s np hg]
    refine ⟨?_, i2, i3, i4, i5, ?_, ?_, ?_⟩
    · simp only [i1]
      rw [heightSum_append, heightSum_single]
    · intro hcon
      simp at hcon
    · intro b bs hbs
      have hbs' : s.currentPageContent ++ [np.node] = b :: bs := hbs
      show fitsFrom env s.resolved.bodyHeight b.height bs
      match hcontent : s.currentPageContent with
      | [] =>
          rw [hcontent] at hbs'
          simp at hbs'
          obtain ⟨hb, hbs''⟩ := hbs'
          subst hbs''
          exact trivial
      | b0 :: rest =>
          rw [hcontent] at hbs'
          simp at hbs'
          obtain ⟨hb, hbs''⟩ := hbs'
          subst hb
          subst hbs''
          apply fitsFrom_append_single env _ rest b0.height np.node (i7 b0 rest hcontent)
          have hbf := break_false_of_guard_false env s np hg (by rw [hcontent]; simp)
          rw [i1, hcontent, heightSum_cons] at hbf
          exact hbf
    · intro b bs p hbs hlast
      have hbs' : s.currentPageContent ++ [np.node] = b :: bs := hbs
      have hlast' : s.pages.getLast? = some p := hlast
      show shouldBreakComputation env (pageCap env p) (heightSum p.blocks) b = true
      match hcontent : s.currentPageContent with
      | [] =>
          have hpages := i6 hcontent
          rw [hpages] at hlast'
          simp at hlast'
      | b0 :: rest =>
          rw [hcontent] at hbs'
          simp at hbs'
          obtain ⟨hb, _⟩ := hbs'
          subst hb
          exact i8 b0 rest p hcontent hlast'

theorem foldl_packWF (env : PackEnv) (doc : List Page) :
    ∀ (contentNodes : List NodePos) (s : PackState),
      s.currentHeight = heightSum s.currentPageContent →
      s.resolved.bodyHeight =
        env.capFn s.resolved.pageNodeAttributes s.resolved.bodyAttrs →
      s.currentPageHeader.isSome = (env.enableHeader && env.hasHeaderFooterType) →
      (∀ p ∈ s.pages, PageWF env p) →
      ForcedChain env s.pages →
      (s.currentPageContent = [] → s.pages = []) →
      (∀ b bs, s.currentPageContent = b :: bs →
        fitsFrom env s.resolved.bodyHeight b.height bs) →
      (∀ b bs p, s.currentPageContent = b :: bs → s.pages.getLast? = some p →
        shouldBreakComputation env (pageCap env p) (heightSum p.blocks) b = true) →
      ((contentNodes.foldl (packStep env doc) s).currentHeight =
          heightSum (contentNodes.foldl (packStep env doc) s).currentPageContent ∧
       (contentNodes.foldl (packStep env doc) s).resolved.bodyHeight =
          env.capFn
            (contentNodes.foldl (packStep env doc) s).resolved.pageNodeAttributes
            (contentNodes.foldl (packStep env doc) s).resolved.bodyAttrs ∧
       (contentNodes.foldl (packStep env doc) s).currentPageHeader.isSome =
          (env.enableHeader && env.hasHeaderFooterType) ∧
       (∀ p ∈ (contentNodes.foldl (packStep env doc) s).pages, PageWF env p) ∧
       ForcedChain env (contentNodes.foldl (packStep env doc) s).pages ∧
       ((contentNodes.foldl (packStep env doc) s).currentPageContent = [] →
          (contentNodes.foldl (packStep env doc) s).pages = []) ∧
       (∀ b bs, (contentNodes.foldl (packStep env doc) s).currentPageContent = b :: bs →
          fitsFrom env (contentNodes.foldl (packStep env doc) s).resolved.bodyHeight
            b.height bs) ∧
       (∀ b bs p,
          (contentNodes.foldl (packStep env doc) s).currentPageContent = b :: bs →
          (contentNodes.foldl (packStep env doc) s).pages.getLast? = some p →
          shouldBreakComputation env (pageCap env p) (heightSum p.blocks) b = true)) := by
  intro contentNodes
  induction contentNodes with
  | nil =>
      intro s h1 h2 h3 h4 h5 h6 h7 h8
      exact ⟨h1, h2, h3, h4, h5, h6, h7, h8⟩
  | cons np rest ih =>
      intro s h1 h2 h3 h4 h5 h6 h7 h8
      simp only [List.foldl_cons]
      obtain ⟨g1, g2, g3, g4, g5, g6, g7, g8⟩ :=
        packStep_packWF env doc s np h1 h2 h3 h4 h5 h6 h7 h8
      exact ih (packStep env doc s np) g1 g2 g3 g4 g5 g6 g7 g8

/-- Every document `buildNewDocument` emits satisfies the packing output
invariant. -/
theorem buildNewDocument_packWF (env : PackEnv) (doc : List Page)
    (contentNodes : List NodePos) :
    PackWF env (buildNewDocument env doc contentNodes).newDoc := by
  unfold buildNewDocument
  obtain ⟨g1, g2, g3, g4, g5, g6, g7, g8⟩ := foldl_packWF env doc contentNodes
    (packInit env doc) (by simp [packInit, heightSum]) (resolver_coherent env doc 0)
    (constructHeader_isSome env _ _) (by intro p hp; simp [packInit] at hp)
    (by simp [packInit]; exact trivial) (by intro _; rfl)
    (by intro b bs hbs; simp [packInit] at hbs)
    (by intro b bs p hbs hl; simp [packInit] at hbs)
  set t := contentNodes.foldl (packStep env doc) (packInit env doc) with htdef
  by_cases hc : t.currentPageContent.isEmpty = true
  · simp only [hc, Bool.not_true, Bool.false_eq_true, if_false]
    exact ⟨g4, g5⟩
  · rw [Bool.not_eq_true] at hc
    simp only [hc, Bool.not_false, if_true]
    have hne : t.currentPageContent ≠ [] := by
      simpa [List.isEmpty_iff] using hc
    have hmkWF : PageWF env (mkPage env t) := by
      refine ⟨hne, g3, constructFooter_isSome env _ _, ?_⟩
      intro b bs hbs
      rw [pageCap_mkPage, ← g2]
      exact g7 b bs hbs
    constructor
    · intro p hp
      rcases List.mem_append.mp hp with hold | hnew
      · exact g4 p hold
      · have : p = mkPage env t := by simpa using hnew
        subst this
        exact hmkWF
    · apply forcedChain_append env t.pages (mkPage env t) g5
      intro p hp b bs hbs
      have hcontent : (mkPage env t).blocks = t.currentPageContent := rfl
      rw [hcontent] at hbs
      exact g8 b bs p hbs hp

theorem resolver_of_get (env : PackEnv) (doc : List Page) (k : Nat) (P : Page)
    (h : doc.get? k = some P) :
    getPaginationNodeAttributes env doc k =
      { pageNodeAttributes := P.attrs
        headerAttrs := (Option.map HeaderFooterNode.attrs P.header).getD env.defaultHeaderAttrs
        bodyAttrs := P.bodyAttrs
        footerAttrs := (Option.map HeaderFooterNode.attrs P.footer).getD env.defaultFooterAttrs
        bodyHeight := env.capFn P.attrs P.bodyAttrs } := by
  unfold getPaginationNodeAttributes
  rw [h]

theorem mkPage_eq (env : PackEnv) (s : PackState) :
    mkPage env s =
      { attrs := s.resolved.pageNodeAttributes
        header := s.currentPageHeader
        bodyAttrs := s.resolved.bodyAttrs
        blocks := s.currentPageContent
        footer := constructFooter env s.existingPageNode s.resolved.footerAttrs } := rfl

theorem packStep_nobreak_fields (env : PackEnv) (doc : List Page) (s : PackState)
    (np : NodePos)
    (hc : (shouldBreakComputation env s.resolved.bodyHeight s.currentHeight np.node
      && !s.currentPageContent.isEmpty) = false) :
    (packStep env doc s np).pages = s.pages ∧
    (packStep env doc s np).pageNum = s.pageNum ∧
    (packStep env doc s np).existingPageNode = s.existingPageNode ∧
    (packStep env doc s np).resolved = s.resolved ∧
    (packStep env doc s np).currentPageHeader = s.currentPageHeader ∧
    (packStep env doc s np).currentPageContent = s.currentPageContent ++ [np.node] ∧
    (packStep env doc s np).currentHeight = s.currentHeight + np.node.height := by
  rw [packStep_nobreak env doc s np hc]
  exact ⟨rfl, rfl, rfl, rfl, rfl, rfl, rfl⟩

theorem packStep_break_fields (env : PackEnv) (doc : List Page) (s : PackState)
    (np : NodePos)
    (hb : shouldBreakComputation env s.resolved.bodyHeight s.currentHeight np.node = true)
    (hne : s.currentPageContent ≠ []) :
    (packStep env doc s np).pages = s.pages ++ [mkPage env s] ∧
    (packStep env doc s np).pageNum = s.pageNum + 1 ∧
    (packStep env doc s np).existingPageNode = doc.get? (s.pageNum + 1) ∧
    (packStep env doc s np).resolved =
      (if isPageNumInRange doc (s.pageNum + 1) = true
       then getPaginationNodeAttributes env doc (s.pageNum + 1)
       else s.resolved) ∧
    (packStep env doc s np).currentPageHeader =
      constructHeader env (doc.get? (s.pageNum + 1))
        (if isPageNumInRange doc (s.pageNum + 1) = true
         then getPaginationNodeAttributes env doc (s.pageNum + 1)
         else s.resolved).headerAttrs ∧
    (packStep env doc s np).currentPageContent = [np.node] ∧
    (packStep env doc s np).currentHeight = 0 + np.node.height := by
  rw [packStep_break env doc s np hb hne]
  exact ⟨rfl, rfl, rfl, rfl, rfl, rfl, rfl⟩

/-- Folding blocks that all fit leaves every field but the current content,
the current height and the position map unchanged. -/
theorem foldl_collectFromBlocks_fields (env : PackEnv) (doc : List Page) :
    ∀ (bs : List Block) (pos : ℤ) (s : PackState),
      s.currentPageContent ≠ [] →
      fitsFrom env s.resolved.bodyHeight s.currentHeight bs →
      ((collectFromBlocks pos bs).foldl (packStep env doc) s).pages = s.pages ∧
      ((collectFromBlocks pos bs).foldl (packStep env doc) s).pageNum = s.pageNum ∧
      ((collectFromBlocks pos bs).foldl (packStep env doc) s).existingPageNode =
        s.existingPageNode ∧
      ((collectFromBlocks pos bs).foldl (packStep env doc) s).resolved = s.resolved ∧
      ((collectFromBlocks pos bs).foldl (packStep env doc) s).currentPageHeader =
        s.currentPageHeader ∧
      ((collectFromBlocks pos bs).foldl (packStep env doc) s).currentPageContent =
        s.currentPageContent ++ bs ∧
      ((collectFromBlocks pos bs).foldl (packStep env doc) s).currentHeight =
        s.currentHeight + heightSum bs := by
  intro bs
  induction bs with
  | nil =>
      intro pos s _ _
      simp [collectFromBlocks, heightSum]
  | cons b rest ih =>
      intro pos s hne hfit
      obtain ⟨hb, hrest⟩ := hfit
      simp only [collectFromBlocks, List.foldl_cons]
      have hguard : (shouldBreakComputation env s.resolved.bodyHeight s.currentHeight
          (NodePos.mk b pos).node && !s.currentPageContent.isEmpty) = false := by
        show (shouldBreakComputation env s.resolved.bodyHeight s.currentHeight b
          && !s.currentPageContent.isEmpty) = false
        rw [hb, Bool.false_and]
      obtain ⟨f1, f2, f3, f4, f5, f6, f7⟩ :=
        packStep_nobreak_fields env doc s (NodePos.mk b pos) hguard
      have hne' : (packStep env doc s (NodePos.mk b pos)).currentPageContent ≠ [] := by
        rw [f6]
        simp
      have hfit' : fitsFrom env (packStep env doc s (NodePos.mk b pos)).resolved.bodyHeight
          (packStep env doc s (NodePos.mk b pos)).currentHeight rest := by
        rw [f4, f7]
        exact hrest
      obtain ⟨g1, g2, g3, g4, g5, g6, g7⟩ :=
        ih (pos + (b.size : ℤ)) (packStep env doc s (NodePos.mk b pos)) hne' hfit'
      refine ⟨g1.trans f1, g2.trans f2, g3.trans f3, g4.trans f4, g5.trans f5, ?_, ?_⟩
      · rw [g6, f6]
        simp
      · rw [g7, f7, heightSum_cons]
        ring

theorem get?_of_drop_cons {α : Type} (G : List α) (k : Nat) (P : α) (rest : List α)
    (h : G.drop k = P :: rest) : G.get? k = some P := by
  rw [List.get?_eq_getElem?]
  have := List.getElem?_drop G k 0
  rw [h] at this
  simpa using this.symm

theorem get?_succ_of_drop_cons_cons {α : Type} (G : List α) (k : Nat) (P Q : α)
    (rest : List α) (h : G.drop k = P :: Q :: rest) : G.get? (k + 1) = some Q := by
  rw [List.get?_eq_getElem?]
  have := List.getElem?_drop G k 1
  rw [h] at this
  simpa using this.symm

theorem drop_succ_of_drop_cons {α : Type} (G : List α) (k : Nat) (P : α) (rest : List α)
    (h : G.drop k = P :: rest) : G.drop (k + 1) = rest := by
  rw [← List.tail_drop, h]
  rfl

theorem take_succ_of_drop_cons {α : Type} (G : List α) (k : Nat) (P : α) (rest : List α)
    (h : G.drop k = P :: rest) : G.take (k + 1) = G.take k ++ [P] := by
  rw [List.take_succ]
  have hget := get?_of_drop_cons G k P rest h
  rw [List.get?_eq_getElem?] at hget
  rw [hget]
  rfl

theorem length_lt_of_drop_cons_cons {α : Type} (G : List α) (k : Nat) (P Q : α)
    (rest : List α) (h : G.drop k = P :: Q :: rest) : k + 1 < G.length := by
  have := congrArg List.length h
  rw [List.length_drop] at this
  simp at this
  omega

/-- The end-of-group state `mkPage` rebuilds the old page itself, provided
the page satisfies the region-flag invariant. -/
theorem mkPage_replay (env : PackEnv) (G : List Page) (k : Nat) (P : Page)
    (s : PackState)
    (hget : G.get? k = some P)
    (hexist : s.existingPageNode = G.get? k)
    (hres : s.resolved = getPaginationNodeAttributes env G k)
    (hheader : s.currentPageHeader = P.header)
    (hcontent : s.currentPageContent = P.blocks)
    (hflag : P.footer.isSome = (env.enableFooter && env.hasHeaderFooterType)) :
    mkPage env s = P := by
  rw [mkPage_eq, hres, hexist, hget, hheader, hcontent,
    resolver_of_get env G k P hget]
  dsimp only
  rw [constructFooter_of_flag env P _ hflag]

theorem replay_groups (env : PackEnv) (G : List Page)
    (hWF : ∀ p ∈ G, PageWF env p) :
    ∀ (rest : List Page) (k : Nat) (P : Page) (off : ℤ) (s : PackState),
      G.drop k = P :: rest →
      ForcedChain env (P :: rest) →
      s.pages = G.take k →
      s.pageNum = k →
      s.existingPageNode = G.get? k →
      s.resolved = getPaginationNodeAttributes env G k →
      s.currentPageHeader = P.header →
      s.currentPageContent = P.blocks →
      s.currentHeight = heightSum P.blocks →
      (if !((collectPages off rest).foldl (packStep env G) s).currentPageContent.isEmpty
       then ((collectPages off rest).foldl (packStep env G) s).pages ++
         [mkPage env ((collectPages off rest).foldl (packStep env G) s)]
       else ((collectPages off rest).foldl (packStep env G) s).pages) = G := by
  intro rest
  induction rest with
  | nil =>
      intro k P off s hdrop hchain hpages hnum hexist hres hheader hcontent hheight
      have hget := get?_of_drop_cons G k P [] hdrop
      have hPmem : P ∈ G := by
        apply List.drop_subset k
        rw [hdrop]
        exact List.mem_cons_self _ _
      obtain ⟨hPne, hPhdr, hPftr, hPmid⟩ := hWF P hPmem
      simp only [collectPages, List.foldl_nil]
      have hne : ¬ s.currentPageContent.isEmpty = true := by
        rw [hcontent]
        simpa [List.isEmpty_iff] using hPne
      simp only [Bool.not_eq_true] at hne
      simp only [hne, Bool.not_false, if_true]
      rw [mkPage_replay env G k P s hget hexist hres hheader hcontent hPftr]
      rw [hpages]
      have : G.take k ++ [P] = G.take k ++ G.drop k := by rw [hdrop]
      rw [this, List.take_append_drop]
  | cons Q rest' ih =>
      intro k P off s hdrop hchain hpages hnum hexist hres hheader hcontent hheight
      have hget := get?_of_drop_cons G k P (Q :: rest') hdrop
      have hgetQ := get?_succ_of_drop_cons_cons G k P Q rest' hdrop
      have hdrop' := drop_succ_of_drop_cons G k P (Q :: rest') hdrop
      have hlen := length_lt_of_drop_cons_cons G k P Q rest' hdrop
      have hPmem : P ∈ G := by
        apply List.drop_subset k
        rw [hdrop]
        exact List.mem_cons_self _ _
      have hQmem : Q ∈ G := by
        apply List.drop_subset k
        rw [hdrop]
        exact List.mem_cons_of_mem _ (List.mem_cons_self _ _)
      obtain ⟨hPne, hPhdr, hPftr, hPmid⟩ := hWF P hPmem
      obtain ⟨hQne, hQhdr, hQftr, hQmid⟩ := hWF Q hQmem
      obtain ⟨hlink, hchain'⟩ := hchain
      match hQb : Q.blocks with
      | [] => exact absurd hQb hQne
      | q0 :: qrest =>
      have hbreak : shouldBreakComputation env s.resolved.bodyHeight s.currentHeight
          q0 = true := by
        rw [hres, resolver_of_get env G k P hget, hheight]
        exact hlink q0 qrest hQb
      have hne : s.currentPageContent ≠ [] := by
        rw [hcontent]
        exact hPne
      obtain ⟨b1, b2, b3, b4, b5, b6, b7⟩ :=
        packStep_break_fields env G s
          ⟨q0, off + (getMaybeNodeSize Q.header : ℤ) + 1 + 1⟩ hbreak hne
      have hinrange : isPageNumInRange G (k + 1) = true := by
        simp [isPageNumInRange]
        omega
      rw [hnum] at b2 b3 b4 b5
      rw [hinrange] at b4 b5
      simp only [if_true] at b4 b5
      have hmkP : mkPage env s = P :=
        mkPage_replay env G k P s hget hexist hres hheader hcontent hPftr
      set s1 := packStep env G s ⟨q0, off + (getMaybeNodeSize Q.header : ℤ) + 1 + 1⟩
        with hs1def
      have hfit1 : fitsFrom env s1.resolved.bodyHeight s1.currentHeight qrest := by
        rw [b4, b7, resolver_of_get env G (k + 1) Q hgetQ]
        show fitsFrom env (env.capFn Q.attrs Q.bodyAttrs) (0 + q0.height) qrest
        rw [zero_add]
        exact hQmid q0 qrest hQb
      have hne1 : s1.currentPageContent ≠ [] := by
        rw [b6]
        simp
      obtain ⟨g1, g2, g3, g4, g5, g6, g7⟩ :=
        foldl_collectFromBlocks_fields env G qrest
          (off + (getMaybeNodeSize Q.header : ℤ) + 1 + 1 + (q0.size : ℤ)) s1 hne1 hfit1
      show (if !((collectPages off (Q :: rest')).foldl (packStep env G) s).currentPageContent.isEmpty
        then ((collectPages off (Q :: rest')).foldl (packStep env G) s).pages ++
          [mkPage env ((collectPages off (Q :: rest')).foldl (packStep env G) s)]
        else ((collectPages off (Q :: rest')).foldl (packStep env G) s).pages) = G
      have hfold : (collectPages off (Q :: rest')).foldl (packStep env G) s =
          (collectPages (off + (Q.nodeSize : ℤ)) rest').foldl (packStep env G)
            ((collectFromBlocks
              (off + (getMaybeNodeSize Q.header : ℤ) + 1 + 1 + (q0.size : ℤ))
              qrest).foldl (packStep env G) s1) := by
        simp only [collectPages, collectPage, hQb, collectFromBlocks]
        rw [List.foldl_append, List.foldl_cons]
      rw [hfold]
      apply ih (k + 1) Q (off + (Q.nodeSize : ℤ)) _ hdrop' hchain'
      · rw [g1, b1, hpages, hmkP, ← take_succ_of_drop_cons G k P (Q :: rest') hdrop]
      · rw [g2, b2]
      · rw [g3, b3]
      · rw [g4, b4]
      · rw [g5, b5, hgetQ]
        exact constructHeader_of_flag env Q _ hQhdr
      · rw [g6, b6, hQb]
        rfl
      · rw [g7, b7, hQb, heightSum_cons]
        ring

/-- Rebuilding a document that satisfies the packing output invariant (with
an unchanged height oracle and capacity resolver) reproduces it exactly. -/
theorem buildNewDocument_replay (env : PackEnv) (G : List Page)
    (hWF : ∀ p ∈ G, PageWF env p) (hchain : ForcedChain env G) :
    (buildNewDocument env G (collectContentNodes G)).newDoc = G := by
  cases G with
  | nil =>
      simp [buildNewDocument, collectContentNodes, collectPages, packInit]
  | cons P rest =>
      obtain ⟨hPne, hPhdr, hPftr, hPmid⟩ := hWF P (List.mem_cons_self _ _)
      have hget0 : (P :: rest).get? 0 = some P := rfl
      match hPb : P.blocks with
      | [] => exact absurd hPb hPne
      | p0 :: prest =>
      have hc : (shouldBreakComputation env
          (packInit env (P :: rest)).resolved.bodyHeight
          (packInit env (P :: rest)).currentHeight
          (NodePos.mk p0 (0 + (getMaybeNodeSize P.header : ℤ) + 1 + 1)).node
          && !(packInit env (P :: rest)).currentPageContent.isEmpty) = false := by
        simp [packInit]
      obtain ⟨b1, b2, b3, b4, b5, b6, b7⟩ :=
        packStep_nobreak_fields env (P :: rest) (packInit env (P :: rest))
          ⟨p0, 0 + (getMaybeNodeSize P.header : ℤ) + 1 + 1⟩ hc
      have hfit1 : fitsFrom env
          (packStep env (P :: rest) (packInit env (P :: rest))
            ⟨p0, 0 + (getMaybeNodeSize P.header : ℤ) + 1 + 1⟩).resolved.bodyHeight
          (packStep env (P :: rest) (packInit env (P :: rest))
            ⟨p0, 0 + (getMaybeNodeSize P.header : ℤ) + 1 + 1⟩).currentHeight prest := by
        rw [b4, b7]
        show fitsFrom env (getPaginationNodeAttributes env (P :: rest) 0).bodyHeight
          ((0 : ℤ) + p0.height) prest
        rw [resolver_of_get env (P :: rest) 0 P hget0, zero_add]
        exact hPmid p0 prest hPb
      have hne1 : (packStep env (P :: rest) (packInit env (P :: rest))
          ⟨p0, 0 + (getMaybeNodeSize P.header : ℤ) + 1 + 1⟩).currentPageContent ≠ [] := by
        rw [b6]
        simp
      obtain ⟨g1, g2, g3, g4, g5, g6, g7⟩ :=
        foldl_collectFromBlocks_fields env (P :: rest) prest
          (0 + (getMaybeNodeSize P.header : ℤ) + 1 + 1 + (p0.size : ℤ)) _ hne1 hfit1
      have hfold : (collectContentNodes (P :: rest)).foldl (packStep env (P :: rest))
          (packInit env (P :: rest)) =
          (collectPages (0 + (P.nodeSize : ℤ)) rest).foldl (packStep env (P :: rest))
            ((collectFromBlocks
              (0 + (getMaybeNodeSize P.header : ℤ) + 1 + 1 + (p0.size : ℤ))
              prest).foldl (packStep env (P :: rest))
              (packStep env (P :: rest) (packInit env (P :: rest))
                ⟨p0, 0 + (getMaybeNodeSize P.header : ℤ) + 1 + 1⟩)) := by
        simp only [collectContentNodes, collectPages, collectPage, hPb, collectFromBlocks]
        rw [List.foldl_append, List.foldl_cons]
      show (if !((collectContentNodes (P :: rest)).foldl (packStep env (P :: rest))
            (packInit env (P :: rest))).currentPageContent.isEmpty
        then ((collectContentNodes (P :: rest)).foldl (packStep env (P :: rest))
            (packInit env (P :: rest))).pages ++
          [mkPage env ((collectContentNodes (P :: rest)).foldl (packStep env (P :: rest))
            (packInit env (P :: rest)))]
        else ((collectContentNodes (P :: rest)).foldl (packStep env (P :: rest))
            (packInit env (P :: rest))).pages) = P :: rest
      rw [hfold]
      apply replay_groups env (P :: rest) hWF rest 0 P (0 + (P.nodeSize : ℤ)) _
        rfl hchain
      · rw [g1, b1]
        rfl
      · rw [g2, b2]
        rfl
      · rw [g3, b3]
        rfl
      · rw [g4, b4]
        rfl
      · rw [g5, b5]
        show constructHeader env ((P :: rest).get? 0)
          (getPaginationNodeAttributes env (P :: rest) 0).headerAttrs = P.header
        rw [hget0]
        exact constructHeader_of_flag env P _ hPhdr
      · rw [g6, b6, hPb]
        rfl
      · rw [g7, b7, hPb, heightSum_cons]
        show (0 : ℤ) + p0.height + heightSum prest = p0.height + heightSum prest
        ring

/-- Repagination is idempotent as a function of the document. -/
theorem repaginate_idempotent (env : PackEnv) (doc : List Page) :
    (repaginate env ((repaginate env doc).newDoc)).newDoc = (repaginate env doc).newDoc := by
  obtain ⟨hWF, hchain⟩ := buildNewDocument_packWF env doc (collectContentNodes doc)
  exact buildNewDocument_replay env (repaginate env doc).newDoc hWF hchain

theorem constructHeader_reuse (env : PackEnv) (p : Page) (a : HFAttrs)
    (h : HeaderFooterNode) (hH : env.enableHeader = true)
    (hT : env.hasHeaderFooterType = true) (hh : p.header = some h) :
    constructHeader env (some p) a = some h := by
  unfold constructHeader constructHeaderFooter
  rw [hH, hT]
  simp [hh]

theorem constructFooter_reuse (env : PackEnv) (p : Page) (a : HFAttrs)
    (f : HeaderFooterNode) (hF : env.enableFooter = true)
    (hT : env.hasHeaderFooterType = true) (hf : p.footer = some f) :
    constructFooter env (some p) a = some f := by
  unfold constructFooter constructHeaderFooter
  rw [hF, hT]
  simp [hf]

theorem constructHeader_default (env : PackEnv) (e : Option Page) (a : HFAttrs)
    (hH : env.enableHeader = true) (hT : env.hasHeaderFooterType = true)
    (he : (e.bind Page.header) = none) :
    constructHeader env e a = some ⟨a, [emptyParagraph]⟩ := by
  unfold constructHeader constructHeaderFooter
  rw [hH, hT]
  cases e with
  | none => rfl
  | some p =>
      simp only [Option.some_bind] at he
      simp [he]

theorem constructFooter_default (env : PackEnv) (e : Option Page) (a : HFAttrs)
    (hF : env.enableFooter = true) (hT : env.hasHeaderFooterType = true)
    (he : (e.bind Page.footer) = none) :
    constructFooter env e a = some ⟨a, [emptyParagraph]⟩ := by
  unfold constructFooter constructHeaderFooter
  rw [hF, hT]
  cases e with
  | none => rfl
  | some p =>
      simp only [Option.some_bind] at he
      simp [he]

/-! Claim theorems. -/

/-- C1: losslessness of packing — for every input sequence of flow blocks
(with their measured heights) and every capacity assignment, concatenating
the body content of all pages of the document `buildNewDocument` produces,
in page order, yields exactly the input block sequence: no block is dropped,
duplicated, or reordered. -/
theorem claim_c1_losslessness (env : PackEnv) (doc : List Page)
    (contentNodes : List NodePos) :
    ((buildNewDocument env doc contentNodes).newDoc.map Page.blocks).flatten =
      contentNodes.map NodePos.node :=
  buildNewDocument_blocks env doc contentNodes

/-- C2 (counterexample): in a paste-operation run, `buildNewDocument` emits a
page holding two blocks whose cumulative measured height (200) exceeds the
page's body capacity (120) — the claim as stated fails for paste runs. -/
theorem claim_c2_counterexample :
    ((buildNewDocument (testEnv true false false) [] twoTallParagraphs).newDoc.map
      (fun p => (p.blocks.length, heightSum p.blocks, pageCap (testEnv true false false) p)))
      = [(2, 200, 120)] ∧ ¬ ((200 : ℤ) ≤ 120) := by
  constructor
  · decide
  · decide

/-- C2 (amended): in a non-paste run with the strict paragraph break check,
every page emitted by `buildNewDocument` that holds two or more blocks has
cumulative measured height at most the page's body capacity; only an
otherwise-empty body may hold a single block taller than the capacity. -/
theorem claim_c2_capacity_respect (env : PackEnv) (doc : List Page)
    (contentNodes : List NodePos)
    (hpaste : env.isPasteOperation = false)
    (hsbp : ∀ b r, env.sbp b r = strictShouldBreakParagraph b r) :
    ∀ p ∈ (buildNewDocument env doc contentNodes).newDoc, 2 ≤ p.blocks.length →
      heightSum p.blocks ≤ pageCap env p :=
  buildNewDocument_capacity env doc contentNodes hpaste hsbp

/-- C2 (witness): the amended capacity theorem evaluated on a concrete
two-block page that fits. -/
theorem claim_c2_witness :
    2 ≤ c2FittedPage.blocks.length ∧
    heightSum c2FittedPage.blocks ≤ pageCap (testEnv false false false) c2FittedPage :=
  ⟨by decide,
    claim_c2_capacity_respect (testEnv false false false) [] twoShortParagraphs rfl
      (fun _ _ => rfl) c2FittedPage (by decide) (by decide)⟩

/-- C3 (counterexample): when no content node was collected (so the position
map is empty), the remapping procedure of `buildPageView` yields null for the
valid old offset 0 — the terminal end-of-document fallback is unreachable
from the retry loop, so the claim's "never null" fails. -/
theorem claim_c3_counterexample :
    remapCursorPos [] (buildNewDocument (testEnv false false false) [] []).oldToNewPosMap
      ((docContentSize (buildNewDocument (testEnv false false false) [] []).newDoc : ℤ))
      0 = none := by
  decide

/-- C3 (amended): whenever at least one content node was collected (at a
nonnegative old position, as every collected position is), the remapping
procedure (exact hit, containing block, nearest key skipping the -1 sentinel,
±1 retries, final clamp) yields a non-null offset in `[0, newDocSize)` for
every old cursor offset. -/
theorem claim_c3_remap_totality (env : PackEnv) (doc : List Page)
    (contentNodes : List NodePos) (h : contentNodes ≠ [])
    (hpos : ∀ np ∈ contentNodes, (0 : ℤ) ≤ np.pos) (oldCursorPos : ℤ) :
    ∃ r, remapCursorPos contentNodes
        (buildNewDocument env doc contentNodes).oldToNewPosMap
        ((docContentSize (buildNewDocument env doc contentNodes).newDoc : ℤ))
        oldCursorPos = some r ∧
      0 ≤ r ∧ r < ((docContentSize (buildNewDocument env doc contentNodes).newDoc : ℤ)) := by
  apply remapCursorPos_total
  · exact buildNewDocument_map_ne_nil env doc contentNodes h
  · exact buildNewDocument_keys_nonneg env doc contentNodes hpos
  · exact docContentSize_pos _ (buildNewDocument_newDoc_ne_nil env doc contentNodes h)

/-- C3 (witness): the amended remap totality evaluated at old offset 7 of the
five-paragraph run. -/
theorem claim_c3_witness :
    ∃ r, remapCursorPos fiveParagraphs
        (buildNewDocument (testEnv false false false) [] fiveParagraphs).oldToNewPosMap
        ((docContentSize
          (buildNewDocument (testEnv false false false) [] fiveParagraphs).newDoc : ℤ))
        7 = some r ∧
      0 ≤ r ∧ r < ((docContentSize
        (buildNewDocument (testEnv false false false) [] fiveParagraphs).newDoc : ℤ)) :=
  claim_c3_remap_totality (testEnv false false false) [] fiveParagraphs (by decide)
    (by decide) 7

/-- C4: greedy break point — under the non-paste environment with the strict
paragraph check, the break decision is exactly the test
`currentHeight + blockHeight > capacity`, and packing 5 paragraphs of height
50 at capacity 120 yields pages of heights [50,50] / [50,50] / [50]. -/
theorem claim_c4_greedy_break :
    (∀ cap cur b, shouldBreakComputation (testEnv false false false) cap cur b =
      decide (cap < cur + b.height)) ∧
    ((buildNewDocument (testEnv false false false) [] fiveParagraphs).newDoc.map
      (fun p => p.blocks.map Block.height)) = [[50, 50], [50, 50], [50]] := by
  constructor
  · intro cap cur b
    exact shouldBreak_strict (testEnv false false false) rfl (fun _ _ => rfl) cap cur b
  · decide

/-- C5 (counterexample): a document of two under-full pages satisfies the
capacity invariant on every page, yet repagination merges the pages and
produces a different tree — so the claim as stated fails. -/
theorem claim_c5_counterexample :
    (∀ p ∈ twoUnderfullPages, heightSum p.blocks ≤ pageCap (testEnv false false false) p) ∧
    (repaginate (testEnv false false false) twoUnderfullPages).newDoc ≠ twoUnderfullPages := by
  constructor
  · decide
  · decide

/-- C5 (amended): repagination is idempotent as a function — repaginating the
output of a repagination pass (with unchanged measured heights and capacity
resolution) reproduces that output exactly, and consequently no replacement
is committed for it (`buildPageView` dispatches only when the rebuilt content
differs). -/
theorem claim_c5_idempotence (env : PackEnv) (doc : List Page) :
    (repaginate env ((repaginate env doc).newDoc)).newDoc = (repaginate env doc).newDoc ∧
    ¬ dispatchesReplacement env ((repaginate env doc).newDoc) := by
  have h := repaginate_idempotent env doc
  exact ⟨h, fun hc => hc h⟩

/-- C6: circuit breaker — whenever the consecutive-failure count has reached
the fixed threshold 3 (hence in particular whenever it exceeds 3) and less
than the 5000 ms cool-down has passed since the last failure, the trigger
controller's decision starts no immediate, delayed, or paste-deferred run. -/
theorem claim_c6_circuit_breaker (ts : TriggerState) (ps : PluginState)
    (obs : ViewObservation) (h1 : 3 ≤ ts.consecutiveErrors)
    (h2 : obs.now - ts.lastErrorTime < 5000) :
    paginationDecision ts ps obs = PaginationRun.noRun := by
  unfold paginationDecision
  split
  · rfl
  · dsimp only
    rw [if_pos ⟨h1, h2⟩]

/-- C6 (witness): after exactly three consecutive failures, with 100 ms
elapsed, the fourth trigger is suppressed even though pagination is pending. -/
theorem claim_c6_witness :
    paginationDecision ⟨false, 0, 0, 3, 0, 0⟩ ⟨0, true, false⟩
      ⟨100, 10, 10, true, false, true⟩ = PaginationRun.noRun :=
  claim_c6_circuit_breaker _ _ _ (by decide) (by decide)

/-- C7 (counterexample): with the header region disabled in the options, the
old page's existing header is not carried into the rebuilt page — the claim
as stated fails without the region-enabled proviso. -/
theorem claim_c7_counterexample :
    (Option.bind (docWithHeaderFooter.get? 0) Page.header).isSome = true ∧
    ((buildNewDocument (testEnv false false false) docWithHeaderFooter
      [⟨testParagraph 1 10, 2⟩]).newDoc.map Page.header) = [none] := by
  constructor
  · decide
  · decide

/-- C7 (amended): provided a region is enabled in the options and the schema
provides the header-footer node type, every rebuilt page at an index where
the old document has a page with an existing header (footer) contains that
very node; a default region holding a single empty paragraph is created only
when the old page at that index lacks the region (or no old page exists). -/
theorem claim_c7_header_footer_reuse (env : PackEnv) (doc : List Page)
    (contentNodes : List NodePos) :
    ∀ i pg, (buildNewDocument env doc contentNodes).newDoc.get? i = some pg →
      (env.enableHeader = true → env.hasHeaderFooterType = true →
        (∀ P h, doc.get? i = some P → P.header = some h → pg.header = some h) ∧
        ((Option.bind (doc.get? i) Page.header) = none →
          ∃ a, pg.header = some ⟨a, [emptyParagraph]⟩)) ∧
      (env.enableFooter = true → env.hasHeaderFooterType = true →
        (∀ P f, doc.get? i = some P → P.footer = some f → pg.footer = some f) ∧
        ((Option.bind (doc.get? i) Page.footer) = none →
          ∃ a, pg.footer = some ⟨a, [emptyParagraph]⟩)) := by
  intro i pg hpg
  obtain ⟨⟨a, ha⟩, ⟨b, hb⟩⟩ := buildNewDocument_regions env doc contentNodes i pg hpg
  constructor
  · intro hH hT
    constructor
    · intro P h hgetP hPh
      rw [ha, hgetP]
      exact constructHeader_reuse env P a h hH hT hPh
    · intro hnone
      exact ⟨a, by rw [ha]; exact constructHeader_default env _ a hH hT hnone⟩
  · intro hF hT
    constructor
    · intro P f hgetP hPf
      rw [hb, hgetP]
      exact constructFooter_reuse env P b f hF hT hPf
    · intro hnone
      exact ⟨b, by rw [hb]; exact constructFooter_default env _ b hF hT hnone⟩

/-- C7 (witness): with both regions enabled, the rebuilt page reuses the old
page's header and footer nodes by identity. -/
theorem claim_c7_witness :
    c7RebuiltPage.header = some ⟨⟨some HFType.header, none⟩, [testParagraph 8 12]⟩ ∧
    c7RebuiltPage.footer = some ⟨⟨some HFType.footer, none⟩, [testParagraph 9 12]⟩ := by
  have h := claim_c7_header_footer_reuse (testEnv false true true) docWithHeaderFooter
    [⟨testParagraph 1 10, 2⟩] 0 c7RebuiltPage (by decide)
  constructor
  · exact (h.1 rfl rfl).1
      ⟨⟨7⟩, some ⟨⟨some HFType.header, none⟩, [testParagraph 8 12]⟩, ⟨7⟩,
        [testParagraph 1 10], some ⟨⟨some HFType.footer, none⟩, [testParagraph 9 12]⟩⟩
      ⟨⟨some HFType.header, none⟩, [testParagraph 8 12]⟩ (by decide) (by decide)
  · exact (h.2 rfl rfl).1
      ⟨⟨7⟩, some ⟨⟨some HFType.header, none⟩, [testParagraph 8 12]⟩, ⟨7⟩,
        [testParagraph 1 10], some ⟨⟨some HFType.footer, none⟩, [testParagraph 9 12]⟩⟩
      ⟨⟨some HFType.footer, none⟩, [testParagraph 9 12]⟩ (by decide) (by decide)

/-- C8 (counterexample): at the true start of the document a position that is
not inside a paragraph makes the start predicates return true (the document
boundary short-circuits), contradicting the claim's demand that they return
false whenever the position is not inside a paragraph. -/
theorem claim_c8_counterexample :
    isPosMatchingStartOfBodyCondition unresolvedAtDocStart true = true ∧
    isPosMatchingStartOfPageBodyCondition unresolvedAtDocStart true = true ∧
    unresolvedAtDocStart.withinParagraph = false := by
  refine ⟨by decide, by decide, by decide⟩

/-- C8 (amended): except at the document boundaries — which short-circuit to
true — the start/end-of-body and start/end-of-page-body predicates return
false whenever the position is not inside a paragraph or the enclosing
body/paragraph positions cannot be resolved; and they return true at the
true start (start predicates) and true end (end predicates) of the whole
document. -/
theorem claim_c8_boundary_predicates (p : ResolvedPosC) (checkExact : Bool) :
    (p.pos = 0 → isPosMatchingStartOfBodyCondition p checkExact = true ∧
      isPosMatchingStartOfPageBodyCondition p checkExact = true) ∧
    (p.pos = p.docSize → isPosMatchingEndOfBodyCondition p checkExact = true ∧
      isPosMatchingEndOfPageBodyCondition p checkExact = true) ∧
    (p.pos ≠ 0 →
      (p.withinParagraph = false ∨ p.startOfBodyPos < 0 ∨ p.startOfParagraphPos < 0) →
      isPosMatchingStartOfBodyCondition p checkExact = false ∧
      isPosMatchingStartOfPageBodyCondition p checkExact = false) ∧
    (p.pos ≠ p.docSize →
      (p.withinParagraph = false ∨ p.endOfParagraphPos < 0 ∨ p.endOfBodyPos < 0) →
      isPosMatchingEndOfBodyCondition p checkExact = false ∧
      isPosMatchingEndOfPageBodyCondition p checkExact = false) := by
  refine ⟨?_, ?_, ?_, ?_⟩
  · intro h0
    constructor
    · simp [isPosMatchingStartOfBodyCondition, isPosAtStartOfDocument, h0]
    · simp [isPosMatchingStartOfPageBodyCondition, isPosAtStartOfDocument, h0]
  · intro hend
    constructor
    · simp [isPosMatchingEndOfBodyCondition, isPosAtEndOfDocument, hend]
    · simp [isPosMatchingEndOfPageBodyCondition, isPosAtEndOfDocument, hend]
  · intro hne hbad
    rcases hbad with h | h | h <;>
      constructor <;>
      simp [isPosMatchingStartOfBodyCondition, isPosMatchingStartOfPageBodyCondition,
        isPosAtStartOfDocument, hne, h]
  · intro hne hbad
    rcases hbad with h | h | h <;>
      constructor <;>
      simp [isPosMatchingEndOfBodyCondition, isPosMatchingEndOfPageBodyCondition,
        isPosAtEndOfDocument, hne, h]

/-- C8 (witness): the amended predicate contract evaluated at a concrete
position: at the document start the predicates short-circuit to true, and at
a non-boundary unresolvable position they return false. -/
theorem claim_c8_witness :
    isPosMatchingStartOfBodyCondition unresolvedAtDocStart false = true ∧
    isPosMatchingEndOfBodyCondition ⟨3, 10, false, -1, -1, -1, -1⟩ true = false :=
  ⟨((claim_c8_boundary_predicates unresolvedAtDocStart false).1 rfl).1,
    (((claim_c8_boundary_predicates ⟨3, 10, false, -1, -1, -1, -1⟩ true).2.2.2
      (by decide) (Or.inl rfl)).1)⟩

/-- C10: page-number default asymmetry — with no stored `pageNumber`
attribute, `getHeaderFooterNodePageNumber` returns the footer defaults
(show = true, left, format placeholder) for footer nodes and the header
defaults (show = false) otherwise; with a stored attribute, the result is
the type's defaults overridden by the stored fields. -/
theorem claim_c10_page_number_defaults (attrs : HFAttrs) :
    (attrs.pageNumber = none → attrs.type = some HFType.footer →
      getHeaderFooterNodePageNumber attrs =
        ⟨true, PNPosition.left, "\x7bn\x7d"⟩) ∧
    (attrs.pageNumber = none → attrs.type ≠ some HFType.footer →
      getHeaderFooterNodePageNumber attrs =
        ⟨false, PNPosition.left, "\x7bn\x7d"⟩) ∧
    (∀ stored, attrs.pageNumber = some stored →
      getHeaderFooterNodePageNumber attrs =
        mergePageNumberOptions
          (if attrs.type = some HFType.footer then DEFAULT_FOOTER_PAGE_NUMBER_OPTIONS
           else DEFAULT_PAGE_NUMBER_OPTIONS) stored) := by
  refine ⟨?_, ?_, ?_⟩
  · intro hnone hftr
    simp [getHeaderFooterNodePageNumber, getHeaderFooterNodeType, hnone, hftr,
      DEFAULT_FOOTER_PAGE_NUMBER_OPTIONS]
  · intro hnone hftr
    simp [getHeaderFooterNodePageNumber, getHeaderFooterNodeType, hnone, hftr,
      DEFAULT_PAGE_NUMBER_OPTIONS]
  · intro stored hsome
    simp [getHeaderFooterNodePageNumber, getHeaderFooterNodeType, hsome]

/-- C10 (witness): the defaults theorem evaluated on a footer node with no
stored attribute and on a header node with a stored partial override. -/
theorem claim_c10_witness :
    getHeaderFooterNodePageNumber ⟨some HFType.footer, none⟩ =
      ⟨true, PNPosition.left, "\x7bn\x7d"⟩ ∧
    getHeaderFooterNodePageNumber ⟨some HFType.header, some ⟨some true, none, none⟩⟩ =
      mergePageNumberOptions DEFAULT_PAGE_NUMBER_OPTIONS ⟨some true, none, none⟩ := by
  constructor
  · exact (claim_c10_page_number_defaults ⟨some HFType.footer, none⟩).1 rfl rfl
  · exact ((claim_c10_page_number_defaults
      ⟨some HFType.header, some ⟨some true, none, none⟩⟩).2.2 ⟨some true, none, none⟩ rfl).trans
      (by decide)

/-- C9: position-map completeness — the map returned by `buildNewDocument`
contains a key for the old position of every collected content node; hence
the containing-block branch of `mapCursorPosition`, which looks up exactly
these keys, never reaches the error case that returns 0. -/
theorem claim_c9_position_map_completeness (env : PackEnv) (doc : List Page)
    (contentNodes : List NodePos) (np : NodePos) (h : np ∈ contentNodes) :
    (mapGet (buildNewDocument env doc contentNodes).oldToNewPosMap np.pos).isSome = true :=
  buildNewDocument_key_isSome env doc contentNodes np h

/-- C9 (witness): the completeness theorem evaluated for the first collected
node of the five-paragraph run. -/
theorem claim_c9_witness :
    (mapGet (buildNewDocument (testEnv false false false) [] fiveParagraphs).oldToNewPosMap
      ((⟨testParagraph 1 50, 2⟩ : NodePos).pos)).isSome = true :=
  claim_c9_position_map_completeness (testEnv false false false) [] fiveParagraphs
    ⟨testParagraph 1 50, 2⟩ (by decide)
